import Mathlib

/-!
Shallow embedding of the streaming batch classification pipeline
(`src/unnamed/part_000`, the Cloud Run job) and of the per-row variant
(`src/function-processCSV/index.js`), together with proofs of the
spec-level properties about them.

JavaScript values that can appear in the oracle's parsed JSON reply are
modelled by `JVal`; JS truthiness and `Number()` coercion are modelled
explicitly, as is the prototype-chain behaviour of `structuredDefs[k]`
property lookup on a plain object.
-/

/-- A JSON-derived JavaScript value, as it can appear in a field of the
oracle's reply (`jabsent` models a missing property, i.e. `undefined`). -/
inductive JVal where
  | jnum (q : ℚ)
  | jstr (s : String)
  | jbool (b : Bool)
  | jnull
  | jabsent
deriving DecidableEq, Repr

/-- JavaScript truthiness of a `JVal` (`undefined`, `null`, `0`, `""`,
`false` are falsy). -/
def JVal.truthy : JVal → Bool
  | .jnum q => q != 0
  | .jstr s => s != ""
  | .jbool b => b
  | .jnull => false
  | .jabsent => false

/-- Digits-only parse of a character list; `none` when a non-digit occurs. -/
def parseDigits (cs : List Char) : Option Nat :=
  if cs.all Char.isDigit then
    some (cs.foldl (fun a c => a * 10 + (c.toNat - 48)) 0)
  else none

/-- Unsigned decimal literal (`"12"`, `"12.5"`, `".5"`, `"5."`), as accepted
by JS `Number()`; `none` models NaN. -/
def parseUnsignedDec (cs : List Char) : Option ℚ :=
  if cs.isEmpty then none
  else
    match cs.span (· ≠ '.') with
    | (ip, []) => (parseDigits ip).map (fun n => (n : ℚ))
    | (ip, _ :: fp) =>
      if ip.isEmpty ∧ fp.isEmpty then none
      else
        match parseDigits ip, parseDigits fp with
        | some i, some f => some ((i : ℚ) + (f : ℚ) / ((10 : ℚ) ^ fp.length))
        | _, _ => none

/-- A JavaScript number: a finite value, kept as an exact rational
(IEEE-double rounding and overflow are abstracted away), or a signed
infinity. NaN is represented separately, as `none` in `Option JsNum`. -/
inductive JsNum where
  | finite (q : ℚ)
  | posInf
  | negInf
deriving DecidableEq, Repr

instance (n : Nat) : OfNat JsNum n := ⟨.finite (OfNat.ofNat n)⟩

/-- JS unary minus on a number. -/
def JsNum.neg : JsNum → JsNum
  | .finite q => .finite (-q)
  | .posInf => .negInf
  | .negInf => .posInf

/-- JS truthiness of a number: `0` is falsy (NaN is handled at the
`Option` level), everything else — both infinities included — is truthy. -/
def JsNum.truthy : JsNum → Bool
  | .finite q => q != 0
  | .posInf => true
  | .negInf => true

/-- Value of a hexadecimal digit character. -/
def hexDigitVal (c : Char) : Option Nat :=
  if c.isDigit then some (c.toNat - 48)
  else if 'a' ≤ c ∧ c ≤ 'f' then some (c.toNat - 87)
  else if 'A' ≤ c ∧ c ≤ 'F' then some (c.toNat - 55)
  else none

/-- Digits of a radix-`base` integer literal (after `0x`, `0o`, `0b`);
`none` on an empty digit list or an out-of-range digit, as in JS
(`Number("0x")` and `Number("0b2")` are NaN). -/
def parseRadix (base : Nat) (cs : List Char) : Option Nat :=
  if cs.isEmpty then none
  else
    cs.foldl
      (fun acc c =>
        match acc, hexDigitVal c with
        | some a, some d => if d < base then some (a * base + d) else none
        | _, _ => none)
      (some 0)

/-- Signed decimal integer exponent after `e`/`E`; `none` when empty or
malformed, as in JS (`Number("1e")` is NaN). -/
def parseExpInt : List Char → Option ℤ
  | '-' :: rest =>
    if rest.isEmpty then none else (parseDigits rest).map (fun n => -(n : ℤ))
  | '+' :: rest =>
    if rest.isEmpty then none else (parseDigits rest).map (fun n => (n : ℤ))
  | cs =>
    if cs.isEmpty then none else (parseDigits cs).map (fun n => (n : ℤ))

/-- Unsigned decimal literal with optional exponent part (`"12.5"`,
`"1e3"`, `"2.5E-2"`); the value is kept exact. -/
def parseDecExp (cs : List Char) : Option ℚ :=
  match cs.span (fun c => c != 'e' && c != 'E') with
  | (mant, []) => parseUnsignedDec mant
  | (mant, _ :: ex) =>
    match parseUnsignedDec mant, parseExpInt ex with
    | some m, some e => some (m * (10 : ℚ) ^ e)
    | _, _ => none

/-- Strip leading and trailing whitespace, written structurally over the
character list so that it evaluates on concrete strings (JS `Number()`
trims the Unicode whitespace class; ASCII whitespace suffices here). -/
def jsTrim (s : String) : String :=
  ⟨(((s.data.dropWhile Char.isWhitespace).reverse).dropWhile
      Char.isWhitespace).reverse⟩

/-- An unsigned numeric literal after the optional sign: `Infinity` or a
decimal literal with optional fraction and exponent (radix-prefixed forms
admit no sign in JS). -/
def parseSignless (cs : List Char) : Option JsNum :=
  if cs = "Infinity".data then some .posInf
  else (parseDecExp cs).map JsNum.finite

/-- JS `Number(string)`: trimmed-empty is `0`; hex/octal/binary integer
literals; otherwise an optional sign followed by `Infinity` or a decimal
literal with optional fraction and exponent; anything else is NaN
(`none`). Finite values are kept exact (double rounding and overflow are
abstracted away); `"Infinity"` and friends map to the infinities. -/
def strToNumber (s : String) : Option JsNum :=
  let t := jsTrim s
  if t.data.isEmpty then some (.finite 0)
  else
    match t.data with
    | '0' :: 'x' :: rest => (parseRadix 16 rest).map (fun n => .finite (n : ℚ))
    | '0' :: 'X' :: rest => (parseRadix 16 rest).map (fun n => .finite (n : ℚ))
    | '0' :: 'o' :: rest => (parseRadix 8 rest).map (fun n => .finite (n : ℚ))
    | '0' :: 'O' :: rest => (parseRadix 8 rest).map (fun n => .finite (n : ℚ))
    | '0' :: 'b' :: rest => (parseRadix 2 rest).map (fun n => .finite (n : ℚ))
    | '0' :: 'B' :: rest => (parseRadix 2 rest).map (fun n => .finite (n : ℚ))
    | '-' :: rest => (parseSignless rest).map JsNum.neg
    | '+' :: rest => parseSignless rest
    | cs => parseSignless cs

/-- JS `Number()` coercion of a `JVal`; `none` models NaN
(`Number(undefined)` is NaN, `Number(null)` is `0`). -/
def toNumber : JVal → Option JsNum
  | .jnum q => some (.finite q)
  | .jstr s => strToNumber s
  | .jbool b => some (.finite (if b then 1 else 0))
  | .jnull => some (.finite 0)
  | .jabsent => none

/-- `x || 0.0` applied to a `Number()` coercion result: NaN and `0` give
`0.0`, any other number — both infinities included — passes through. -/
def numOrZero : Option JsNum → JsNum
  | none => .finite 0
  | some n => if n.truthy then n else .finite 0

/-- JS `ToPropertyKey` rendering of a `JVal` used as an object index.
Only string keys occur in practice; the other cases follow JS string
coercion (integral numbers render as decimal digits). -/
def JVal.asKey : JVal → String
  | .jstr s => s
  | .jnum q => toString q
  | .jbool b => if b then "true" else "false"
  | .jnull => "null"
  | .jabsent => "undefined"

/-- Split a character list at every occurrence of `sep`; the result is
always non-empty, and empty segments are kept, as in JS `String.split`. -/
def splitCharList (sep : Char) : List Char → List (List Char)
  | [] => [[]]
  | c :: rest =>
    let r := splitCharList sep rest
    if c = sep then [] :: r
    else (c :: r.headD []) :: r.tail

/-- JS `str.split('/')`: `""` gives `[""]`, adjacent separators give empty
segments. -/
def splitSlash (s : String) : List String :=
  (splitCharList '/' s.data).map String.mk

/-- One sub-pool of the taxonomy: `{name, definition}`. -/
structure SubPool where
  name : String
  defn : String
deriving DecidableEq, Repr

/-- One cost pool of the taxonomy: `{definition, sub_pools}`. -/
structure Pool where
  defn : String
  sub_pools : List SubPool
deriving DecidableEq, Repr

/-- The loaded taxonomy (`structuredDefs`): a plain JS object mapping cost
pool name to `Pool`, modelled as an ordered association list of its own
properties. -/
abbrev Taxonomy := List (String × Pool)

/-- Properties inherited by every plain JS object from `Object.prototype`:
indexing `structuredDefs` with one of these names yields a truthy value
that is not a pool object. -/
def protoProps : List String :=
  ["constructor", "hasOwnProperty", "isPrototypeOf", "propertyIsEnumerable",
   "toLocaleString", "toString", "valueOf", "__proto__",
   "__defineGetter__", "__defineSetter__", "__lookupGetter__", "__lookupSetter__"]

/-- Result of the JS property read `structuredDefs[k]`: an own property
(a pool), a truthy value inherited from `Object.prototype` (which has no
`sub_pools` field), or `undefined`. -/
inductive DefsLookup where
  | ownPool (p : Pool)
  | inherited
  | notPresent
deriving DecidableEq, Repr

/-- JS property lookup on the taxonomy object, prototype chain included. -/
def taxonomyLookup (defs : Taxonomy) (k : String) : DefsLookup :=
  match defs.find? (fun p => p.1 == k) with
  | some (_, pool) => .ownPool pool
  | none => if protoProps.contains k then .inherited else .notPresent

/-- One value of the oracle's parsed JSON reply object
(`{cost_pool, cost_sub_pool, confidence, reasoning}`, any field possibly
absent or of the wrong type). -/
structure OracleEntry where
  cost_pool : JVal
  cost_sub_pool : JVal
  confidence : JVal
  reasoning : JVal
deriving DecidableEq, Repr

/-- Outcome of one `generateContent` call for a batch, after the
`try { ... JSON.parse ... } catch { aiResponse = {} }` block: `failure`
covers both transport errors and replies that fail to parse as a single
JSON object after stripping code fences (yielding the empty mapping). -/
inductive OracleOutcome where
  | failure
  | success (entries : List (String × OracleEntry))
deriving DecidableEq, Repr

/-- `aiResponse[`transaction_${row.index}`]`; `none` when the key is
missing (or the whole call failed and `aiResponse` is `{}`). -/
def lookupResponse (outcome : OracleOutcome) (idx : Nat) : Option OracleEntry :=
  match outcome with
  | .failure => none
  | .success entries =>
    (entries.find? (fun p => p.1 == "transaction_" ++ toString idx)).map Prod.snd

/-- A classification as assembled in `processBatch` before the Firestore
write (field values still raw JS values). -/
structure Classification where
  cost_pool : JVal
  cost_sub_pool : JVal
  confidence : JVal
  reasoning : JVal
deriving DecidableEq, Repr

/-- The fallback classification literal of `processBatch`. -/
def fallbackClassification : Classification :=
  { cost_pool := .jstr "Unclassified"
    cost_sub_pool := .jstr "Unclassified"
    confidence := .jnum 0
    reasoning := .jstr "AI response was missing, invalid, or could not be parsed." }

/-- A thrown JS runtime error. -/
inductive JsError where
  | typeError
deriving DecidableEq, Repr

deriving instance DecidableEq for Except

/-- The per-row validation of `processBatch` (src/unnamed/part_000 lines
96-117): keep the fallback unless the entry exists, `cost_pool` is truthy,
`structuredDefs[cost_pool]` is truthy, and `cost_sub_pool` is strictly
equal to some `sub_pools[i].name`.  When `cost_pool` names an inherited
`Object.prototype` property the lookup is truthy but has no `sub_pools`,
so `.some` is called on `undefined` and a TypeError is thrown. -/
def classifyRow (defs : Taxonomy) (res : Option OracleEntry) :
    Except JsError Classification :=
  match res with
  | none => .ok fallbackClassification
  | some r =>
    if r.cost_pool.truthy then
      match taxonomyLookup defs r.cost_pool.asKey with
      | .ownPool pool =>
        if pool.sub_pools.any (fun sp => r.cost_sub_pool == .jstr sp.name) then
          .ok { cost_pool := r.cost_pool
                cost_sub_pool := r.cost_sub_pool
                confidence := if r.confidence.truthy then r.confidence else .jnum 0
                reasoning :=
                  if r.reasoning.truthy then r.reasoning
                  else .jstr "No reasoning provided." }
        else .ok fallbackClassification
      | .inherited => .error .typeError
      | .notPresent => .ok fallbackClassification
    else .ok fallbackClassification

/-- A value stored in a field of a written Firestore document. -/
inductive FieldVal where
  | vjson (v : JVal)
  | vdata (d : List (String × String))
  | vnat (n : Nat)
  | vnum (n : JsNum)
deriving DecidableEq, Repr

/-- JS object-literal property insertion: re-assigning an existing key
overwrites its value in place, a new key is appended. -/
def objInsert (o : List (String × FieldVal)) (k : String) (v : FieldVal) :
    List (String × FieldVal) :=
  if o.any (fun p => p.1 == k) then
    o.map (fun p => if p.1 == k then (k, v) else p)
  else o ++ [(k, v)]

/-- The parsed fields of one source row (header name to raw string). -/
abbrev RowData := List (String × String)

/-- The document written per row by `bulkWriter.set` (part_000 lines
120-125): `{ original_data: row.data, ...classification, row_index:
row.index, confidence: Number(classification.confidence) || 0.0 }`. -/
def mkRowDoc (rowData : RowData) (rowIndex : Nat) (cls : Classification) :
    List (String × FieldVal) :=
  let o := [("original_data", FieldVal.vdata rowData)]
  let o := objInsert o "cost_pool" (.vjson cls.cost_pool)
  let o := objInsert o "cost_sub_pool" (.vjson cls.cost_sub_pool)
  let o := objInsert o "confidence" (.vjson cls.confidence)
  let o := objInsert o "reasoning" (.vjson cls.reasoning)
  let o := objInsert o "row_index" (.vnat rowIndex)
  objInsert o "confidence" (.vnum (numOrZero (toNumber cls.confidence)))

/-- One buffered `bulkWriter.set`: the document id is `String(row.index)`,
carried here as the index itself. -/
structure RowWrite where
  rowIndex : Nat
  doc : List (String × FieldVal)
deriving DecidableEq, Repr

/-- Read a field of a written document. -/
def docGet (doc : List (String × FieldVal)) (k : String) : Option FieldVal :=
  (doc.find? (fun p => p.1 == k)).map Prod.snd

/-- A source row with its stream-assigned index. -/
structure SourceRow where
  index : Nat
  data : RowData
deriving DecidableEq, Repr

/-- Assign consecutive indices to a stream of parsed rows. -/
def indexRows : Nat → List RowData → List SourceRow
  | _, [] => []
  | n, r :: rest => ⟨n, r⟩ :: indexRows (n + 1) rest

/-- The write produced for one row from its classification. -/
def mkWrite (row : SourceRow) (cls : Classification) : RowWrite :=
  ⟨row.index, mkRowDoc row.data row.index cls⟩

/-- The `for (const row of batch)` loop of `processBatch`: classify each
row against the (already settled) oracle outcome and buffer one write per
row; a thrown TypeError aborts the loop, keeping the writes made so far. -/
def processBatch (defs : Taxonomy) (outcome : OracleOutcome) :
    List SourceRow → List RowWrite × Option JsError
  | [] => ([], none)
  | row :: rest =>
    match classifyRow defs (lookupResponse outcome row.index) with
    | .error e => ([], some e)
    | .ok cls =>
      let (ws, err) := processBatch defs outcome rest
      (mkWrite row cls :: ws, err)

/-- Job document status values written by the Cloud Run job. -/
inductive JobStatus where
  | reading
  | processingBatch (n : Nat)
  | completed
  | failed
deriving DecidableEq, Repr

/-- Errors that can be thrown by `main` of the Cloud Run job. -/
inductive RunError where
  | missingArgs
  | invalidSourcePath
  | definitionsMissing
  | jsError (e : JsError)
deriving DecidableEq, Repr

/-- State of the `for await (const row of csvStream)` loop of `main`,
extended with the observable effects accumulated so far: job status
updates, buffered `bulkWriter` writes, and the sequence of batches passed
to `processBatch`. -/
structure LoopState where
  batch : List SourceRow
  rowIndex : Nat
  callNo : Nat
  trace : List JobStatus
  writes : List RowWrite
  batches : List (List SourceRow)
deriving Repr

/-- `const BATCH_SIZE = 50`. -/
def BATCH_SIZE : Nat := 50

/-- The streaming loop of `main` (part_000 lines 174-183): push each row
with its assigned index; once the pending batch reaches `B` rows, update
the job status to `processing_batch_{floor(rowIndex / B)}` and process the
batch.  A TypeError thrown inside `processBatch` aborts the loop. -/
def streamLoop (B : Nat) (defs : Taxonomy) (oracle : Nat → OracleOutcome) :
    List RowData → LoopState → LoopState × Option JsError
  | [], st => (st, none)
  | r :: rest, st =>
    let batch := st.batch ++ [⟨st.rowIndex, r⟩]
    let rowIndex := st.rowIndex + 1
    if B ≤ batch.length then
      let trace := st.trace ++ [.processingBatch (rowIndex / B)]
      let (ws, err) := processBatch defs (oracle st.callNo) batch
      let st' : LoopState :=
        { batch := [], rowIndex := rowIndex, callNo := st.callNo + 1, trace := trace,
          writes := st.writes ++ ws, batches := st.batches ++ [batch] }
      match err with
      | some e => (st', some e)
      | none => streamLoop B defs oracle rest st'
    else
      streamLoop B defs oracle rest { st with batch := batch, rowIndex := rowIndex }

/-- The externally visible outcome of one pipeline invocation: statuses
written to the job document in order, row documents written, batches
handed to `processBatch` in order, the final `totalRows` field, the
`error` field written by the catch handler, and the unhandled error the
process died with (`none` means the job ran to completion). -/
structure RunState where
  trace : List JobStatus
  writes : List RowWrite
  batches : List (List SourceRow)
  totalRows : Option Nat
  errorField : Option RunError
  result : Option RunError
deriving Repr

/-- Outcome of `main` before the top-level `.catch` handler. -/
structure MainOutcome where
  trace : List JobStatus
  writes : List RowWrite
  batches : List (List SourceRow)
  totalRows : Option Nat
  err : Option RunError
deriving Repr

/-- `main` of the Cloud Run job (part_000 lines 130-198), parameterized by
the batch size constant: argument check, source path check (at least 4
`/`-separated segments, first one `uploads`), taxonomy load (the `reading`
status write is issued alongside it), the streaming loop, the final
partial batch (processed without a status update), and the `completed`
status write carrying `totalRows`. -/
def runMainWith (B : Nat) (gcsBucket gcsFile : String) (defs? : Option Taxonomy)
    (rows : List RowData) (oracle : Nat → OracleOutcome) : MainOutcome :=
  if gcsBucket = "" ∨ gcsFile = "" then ⟨[], [], [], none, some .missingArgs⟩
  else
    let parts := splitSlash gcsFile
    if parts.length < 4 ∨ parts.getD 0 "" ≠ "uploads" then
      ⟨[], [], [], none, some .invalidSourcePath⟩
    else
      match defs? with
      | none => ⟨[.reading], [], [], none, some .definitionsMissing⟩
      | some defs =>
        let st0 : LoopState := ⟨[], 0, 0, [.reading], [], []⟩
        match streamLoop B defs oracle rows st0 with
        | (st, some e) => ⟨st.trace, st.writes, st.batches, none, some (.jsError e)⟩
        | (st, none) =>
          if st.batch.isEmpty then
            ⟨st.trace ++ [.completed], st.writes, st.batches, some st.rowIndex, none⟩
          else
            match processBatch defs (oracle st.callNo) st.batch with
            | (ws, some e) =>
              ⟨st.trace, st.writes ++ ws, st.batches ++ [st.batch], none, some (.jsError e)⟩
            | (ws, none) =>
              ⟨st.trace ++ [.completed], st.writes ++ ws, st.batches ++ [st.batch],
               some st.rowIndex, none⟩

/-- The top-level `main().catch(...)` handler (part_000 lines 200-217): on
an unhandled error it updates the job status to `failed` and records the
`error` field, but only when the file argument is present and splits into
at least 4 segments. -/
def runCatch (gcsFile : String) (m : MainOutcome) : RunState :=
  match m.err with
  | none => ⟨m.trace, m.writes, m.batches, m.totalRows, none, none⟩
  | some e =>
    if gcsFile ≠ "" ∧ 4 ≤ (splitSlash gcsFile).length then
      ⟨m.trace ++ [.failed], m.writes, m.batches, m.totalRows, some e, some e⟩
    else
      ⟨m.trace, m.writes, m.batches, m.totalRows, none, some e⟩

/-- One full invocation of the Cloud Run job with batch size `B`. -/
def runJobWith (B : Nat) (gcsBucket gcsFile : String) (defs? : Option Taxonomy)
    (rows : List RowData) (oracle : Nat → OracleOutcome) : RunState :=
  runCatch gcsFile (runMainWith B gcsBucket gcsFile defs? rows oracle)

/-- One full invocation of the Cloud Run job as deployed
(`BATCH_SIZE = 50`). -/
def runJob (gcsBucket gcsFile : String) (defs? : Option Taxonomy)
    (rows : List RowData) (oracle : Nat → OracleOutcome) : RunState :=
  runJobWith BATCH_SIZE gcsBucket gcsFile defs? rows oracle

/-- Pure description of the batching the loop performs: starting from a
pending batch, split the remaining rows into the full batches emitted
inside the loop and the pending remainder left when the stream ends. -/
def batchSplit (B : Nat) : List SourceRow → List SourceRow →
    List (List SourceRow) × List SourceRow
  | pending, [] => ([], pending)
  | pending, x :: rest =>
    let p := pending ++ [x]
    if B ≤ p.length then
      let (bs, rem) := batchSplit B [] rest
      (p :: bs, rem)
    else batchSplit B p rest

/-- Pure description of processing a sequence of batches with consecutive
oracle calls, stopping at the first thrown error. -/
def processSeq (defs : Taxonomy) (oracle : Nat → OracleOutcome) :
    Nat → List (List SourceRow) → List RowWrite × Option JsError
  | _, [] => ([], none)
  | c, b :: bs =>
    match processBatch defs (oracle c) b with
    | (ws, some e) => (ws, some e)
    | (ws, none) =>
      let (ws', e') := processSeq defs oracle (c + 1) bs
      (ws ++ ws', e')

/-- The per-batch write lists produced by consecutive oracle calls
starting at call number `c` (the writes `processSeq` would join). -/
def seqWrites (defs : Taxonomy) (oracle : Nat → OracleOutcome) :
    Nat → List (List SourceRow) → List (List RowWrite)
  | _, [] => []
  | c, b :: bs => (processBatch defs (oracle c) b).1 :: seqWrites defs oracle (c + 1) bs

/-- The batches one job run hands to `processBatch`, in order: all full
batches, then the final partial batch when the remainder is non-empty. -/
def jobBatches (B : Nat) (rows : List RowData) : List (List SourceRow) :=
  let fr := batchSplit B [] (indexRows 0 rows)
  if fr.2.isEmpty then fr.1 else fr.1 ++ [fr.2]

/-!  The per-row pipeline variant: the `processCSV` cloud function
(`src/function-processCSV/index.js`). -/

/-- Job statuses used by the per-row variant (it writes `processing`, not
`processing_batch_N`). -/
inductive CsvStatus where
  | reading
  | processing
  | completed
  | failed
deriving DecidableEq, Repr

/-- Environment outcome for one row of the per-row variant: the
`generateContent` call may reject (outside any `try`, so it crashes the
whole `Promise.all`), or reply with text that fails `JSON.parse` (caught
per row, `none`), or reply with a parsed object; `writeOk` is whether the
row's own `rowDocRef.set` succeeds. -/
inductive CsvRowOutcome where
  | transportError
  | reply (r : Option OracleEntry) (writeOk : Bool)
deriving DecidableEq, Repr

/-- The fallback classification literal of the per-row variant (its
reasoning string differs from the batched one). -/
def csvFallback : Classification :=
  { cost_pool := .jstr "Unclassified"
    cost_sub_pool := .jstr "Unclassified"
    confidence := .jnum 0
    reasoning := .jstr "AI response could not be parsed or validated." }

/-- Per-row validation of the per-row variant (index.js lines 136-162).
The whole parse-and-validate block is inside `try { } catch { }`, so both
an unparseable reply and the inherited-property TypeError leave the
default fallback in place. -/
def csvClassifyRow (defs : Taxonomy) (r : Option OracleEntry) : Classification :=
  match r with
  | none => csvFallback
  | some r =>
    if r.cost_pool.truthy then
      match taxonomyLookup defs r.cost_pool.asKey with
      | .ownPool pool =>
        if pool.sub_pools.any (fun sp => r.cost_sub_pool == .jstr sp.name) then
          { cost_pool := r.cost_pool
            cost_sub_pool := r.cost_sub_pool
            confidence := if r.confidence.truthy then r.confidence else .jnum 0
            reasoning :=
              if r.reasoning.truthy then r.reasoning
              else .jstr "No reasoning provided." }
        else csvFallback
      | .inherited => csvFallback
      | .notPresent => csvFallback
    else csvFallback

/-- Externally visible outcome of one `processCSV` invocation. -/
structure CsvRunState where
  trace : List CsvStatus
  totalRows : Option Nat
  errorField : Option String
  writes : List RowWrite
  crashed : Bool
deriving Repr

/-- Whether a row's promise in the `Promise.all` rejects. -/
def csvRowCrashes : CsvRowOutcome → Bool
  | .transportError => true
  | .reply _ writeOk => !writeOk

/-- The writes produced by the per-row `Promise.all`: each row whose own
oracle call and write succeed produces its document regardless of other
rows (there is no cancellation). -/
def csvRowWrites (defs : Taxonomy) (outcomes : Nat → CsvRowOutcome) :
    List SourceRow → List RowWrite
  | [] => []
  | row :: rest =>
    match outcomes row.index with
    | .transportError => csvRowWrites defs outcomes rest
    | .reply r writeOk =>
      let w := mkWrite row (csvClassifyRow defs r)
      if writeOk then w :: csvRowWrites defs outcomes rest
      else csvRowWrites defs outcomes rest

/-- The `processCSV` cloud function (index.js lines 80-182).  Everything
runs inside one top-level `try { } catch (err) { console.error(err) }`:
a thrown error is only logged, the job document is never marked `failed`
and no `error` field is ever written. -/
def processCSVRun (defs? : Option Taxonomy) (event : Option (String × String))
    (readResult : Except Unit (List RowData)) (outcomes : Nat → CsvRowOutcome) :
    CsvRunState :=
  match defs? with
  | none => ⟨[], none, none, [], true⟩
  | some defs =>
    if defs.isEmpty then ⟨[], none, none, [], false⟩
    else
      match event with
      | none => ⟨[], none, none, [], false⟩
      | some (_, name) =>
        let parts := splitSlash name
        if parts.length < 4 ∨ parts.getD 0 "" ≠ "uploads" then
          ⟨[], none, none, [], false⟩
        else
          match readResult with
          | .error _ => ⟨[.reading], none, none, [], true⟩
          | .ok records =>
            let srows := indexRows 0 records
            let ws := csvRowWrites defs outcomes srows
            if srows.any (fun row => csvRowCrashes (outcomes row.index)) then
              ⟨[.reading, .processing], some records.length, none, ws, true⟩
            else
              ⟨[.reading, .processing, .completed], some records.length, none, ws, false⟩

/-- A concrete taxonomy used by concrete runs in witnesses and
counterexamples. -/
def defsEx : Taxonomy :=
  [("Hardware", ⟨"physical equipment", [⟨"Laptops", "portable computers"⟩,
                                        ⟨"Monitors", "display devices"⟩]⟩),
   ("Software", ⟨"licensed programs", [⟨"SaaS", "subscription software"⟩]⟩)]

/-- An oracle entry naming a valid pool and sub-pool of `defsEx`. -/
def entryHW : OracleEntry :=
  ⟨.jstr "Hardware", .jstr "Laptops", .jnum 1, .jstr "matched the definition"⟩

/-- An oracle answering every batch with a valid entry for row 0. -/
def oracleHW : Nat → OracleOutcome :=
  fun _ => .success [("transaction_0", entryHW)]

/-- A one-row job run whose oracle reply validates successfully. -/
def runHW : RunState :=
  runJobWith 50 "bucket" "uploads/acme/job1/data.csv" (some defsEx)
    [[("desc", "laptop")]] oracleHW

/-- An oracle supplying a valid pool pair but a confidence of `5`. -/
def oracleConf5 : Nat → OracleOutcome :=
  fun _ => .success
    [("transaction_0", ⟨.jstr "Hardware", .jstr "Laptops", .jnum 5, .jstr "sure"⟩)]

/-- A one-row job run persisting the out-of-range confidence. -/
def runConf5 : RunState :=
  runJobWith 50 "bucket" "uploads/acme/job1/data.csv" (some defsEx)
    [[("desc", "laptop")]] oracleConf5

/-- An oracle supplying a valid pool pair and the confidence string
`"Infinity"`, which `Number()` coerces to the (truthy) value Infinity. -/
def oracleConfInf : Nat → OracleOutcome :=
  fun _ => .success
    [("transaction_0",
      ⟨.jstr "Hardware", .jstr "Laptops", .jstr "Infinity", .jstr "sure"⟩)]

/-- A one-row job run persisting an infinite confidence. -/
def runConfInf : RunState :=
  runJobWith 50 "bucket" "uploads/acme/job1/data.csv" (some defsEx)
    [[("desc", "laptop")]] oracleConfInf

/-- An oracle naming the inherited `Object.prototype` property
`constructor` as the cost pool. -/
def oracleCtor : Nat → OracleOutcome :=
  fun _ => .success
    [("transaction_0", ⟨.jstr "constructor", .jstr "Laptops", .jnum 1, .jabsent⟩)]

/-- A one-row job run hitting the inherited-property TypeError. -/
def runCtor : RunState :=
  runJobWith 50 "bucket" "uploads/acme/job1/data.csv" (some defsEx)
    [[("desc", "laptop")]] oracleCtor

/-- Five one-field rows, used with batch size 2 (three batches). -/
def rows5 : List RowData := List.replicate 5 []

/-- A healthy oracle for `rows5`: every correlation key answered. -/
def oracleAll5 : Nat → OracleOutcome :=
  fun _ => .success
    [("transaction_0", entryHW), ("transaction_1", entryHW),
     ("transaction_2", entryHW), ("transaction_3", entryHW),
     ("transaction_4", entryHW)]

/-- `oracleAll5` with the call for batch index 1 failing. -/
def oracleFail1 : Nat → OracleOutcome :=
  fun i => if i = 1 then .failure else oracleAll5 i

section PipelineLemmas

@[simp] theorem mkWrite_rowIndex (row : SourceRow) (cls : Classification) :
    (mkWrite row cls).rowIndex = row.index := rfl

@[simp] theorem indexRows_length (n : Nat) (l : List RowData) :
    (indexRows n l).length = l.length := by
  induction l generalizing n with
  | nil => rfl
  | cons r rest ih => simp [indexRows, ih]

theorem indexRows_map_index (n : Nat) (l : List RowData) :
    (indexRows n l).map SourceRow.index = List.range' n l.length := by
  induction l generalizing n with
  | nil => rfl
  | cons r rest ih => simp [indexRows, List.range'_succ, ih]

theorem batchSplit_join (B : Nat) (pending l : List SourceRow) :
    (batchSplit B pending l).1.flatten ++ (batchSplit B pending l).2 = pending ++ l := by
  induction l generalizing pending with
  | nil => simp [batchSplit]
  | cons x rest ih =>
    by_cases h : B ≤ pending.length + 1
    · simpa [batchSplit, h] using ih []
    · simpa [batchSplit, h] using ih (pending ++ [x])

theorem batchSplit_sizes (B : Nat) (pending l : List SourceRow) (hB : 0 < B)
    (hp : pending.length < B) :
    ∀ b ∈ (batchSplit B pending l).1, b.length = B := by
  induction l generalizing pending with
  | nil => simp [batchSplit]
  | cons x rest ih =>
    by_cases h : B ≤ pending.length + 1
    · have hpB : pending.length + 1 = B := by omega
      simp only [batchSplit, List.length_append, List.length_cons, List.length_nil,
        Nat.zero_add, h, if_true]
      intro b hb
      rcases List.mem_cons.mp hb with hb | hb
      · subst hb; simpa using hpB
      · exact ih [] (by simpa using hB) b hb
    · have hp' : (pending ++ [x]).length < B := by simp; omega
      simp only [batchSplit, List.length_append, List.length_cons, List.length_nil,
        Nat.zero_add, h, if_false]
      exact ih (pending ++ [x]) hp'

theorem batchSplit_count (B : Nat) (pending l : List SourceRow) (hB : 0 < B)
    (hp : pending.length < B) :
    (batchSplit B pending l).1.length = (pending.length + l.length) / B := by
  induction l generalizing pending with
  | nil => simp [batchSplit, Nat.div_eq_of_lt hp]
  | cons x rest ih =>
    by_cases h : B ≤ pending.length + 1
    · have hpB : pending.length + 1 = B := by omega
      simp only [batchSplit, List.length_append, List.length_cons, List.length_nil,
        Nat.zero_add, h, if_true]
      rw [ih [] (by simpa using hB)]
      simp only [List.length_nil, Nat.zero_add, List.length_cons]
      have hre : pending.length + (rest.length + 1) = rest.length + B := by omega
      rw [hre, Nat.add_div_right _ hB, Nat.add_comm]
    · have hp' : (pending ++ [x]).length < B := by simp; omega
      simp only [batchSplit, List.length_append, List.length_cons, List.length_nil,
        Nat.zero_add, h, if_false, List.length_cons]
      rw [ih (pending ++ [x]) hp']
      congr 1
      simp
      omega

theorem batchSplit_rem (B : Nat) (pending l : List SourceRow) (hB : 0 < B)
    (hp : pending.length < B) :
    (batchSplit B pending l).2.length = (pending.length + l.length) % B := by
  induction l generalizing pending with
  | nil => simp [batchSplit, Nat.mod_eq_of_lt hp]
  | cons x rest ih =>
    by_cases h : B ≤ pending.length + 1
    · have hpB : pending.length + 1 = B := by omega
      simp only [batchSplit, List.length_append, List.length_cons, List.length_nil,
        Nat.zero_add, h, if_true]
      rw [ih [] (by simpa using hB)]
      simp only [List.length_nil, Nat.zero_add, List.length_cons]
      have hre : pending.length + (rest.length + 1) = rest.length + B := by omega
      rw [hre, Nat.add_mod_right]
    · have hp' : (pending ++ [x]).length < B := by simp; omega
      simp only [batchSplit, List.length_append, List.length_cons, List.length_nil,
        Nat.zero_add, h, if_false, List.length_cons]
      rw [ih (pending ++ [x]) hp']
      congr 1
      simp
      omega

theorem processBatch_failure (defs : Taxonomy) (b : List SourceRow) :
    processBatch defs .failure b =
      (b.map (fun row => mkWrite row fallbackClassification), none) := by
  induction b with
  | nil => rfl
  | cons row rest ih => simp [processBatch, lookupResponse, classifyRow, ih]

theorem processBatch_idx (defs : Taxonomy) (o : OracleOutcome) (b : List SourceRow)
    (h : (processBatch defs o b).2 = none) :
    (processBatch defs o b).1.map RowWrite.rowIndex = b.map SourceRow.index := by
  induction b with
  | nil => rfl
  | cons row rest ih =>
    simp only [processBatch] at h ⊢
    cases hc : classifyRow defs (lookupResponse o row.index) with
    | error e => simp [hc] at h
    | ok cls =>
      simp only [hc] at h ⊢
      simp only [List.map_cons, mkWrite_rowIndex]
      rw [ih h]

theorem processBatch_mem (defs : Taxonomy) (o : OracleOutcome) (b : List SourceRow)
    (w : RowWrite) (hw : w ∈ (processBatch defs o b).1) :
    ∃ row ∈ b, ∃ cls, classifyRow defs (lookupResponse o row.index) = .ok cls ∧
      w = mkWrite row cls := by
  induction b with
  | nil => simp [processBatch] at hw
  | cons row rest ih =>
    simp only [processBatch] at hw
    cases hc : classifyRow defs (lookupResponse o row.index) with
    | error e => simp [hc] at hw
    | ok cls =>
      simp only [hc, List.mem_cons] at hw
      rcases hw with hw | hw
      · exact ⟨row, by simp, cls, hc, hw⟩
      · obtain ⟨row', hrow', cls', hc', hw'⟩ := ih hw
        exact ⟨row', by simp [hrow'], cls', hc', hw'⟩

theorem processSeq_prefix_ok (defs : Taxonomy) (o : Nat → OracleOutcome) (c : Nat)
    (bs1 bs2 : List (List SourceRow))
    (h : (processSeq defs o c (bs1 ++ bs2)).2 = none) :
    (processSeq defs o c bs1).2 = none := by
  induction bs1 generalizing c with
  | nil => rfl
  | cons b bs ih =>
    simp only [List.cons_append, processSeq] at h ⊢
    cases hb : processBatch defs (o c) b with
    | mk ws err =>
      simp only [hb] at h ⊢
      cases err with
      | some e => simp at h
      | none =>
        replace h : (processSeq defs o (c + 1) (bs ++ bs2)).2 = none := by simpa using h
        simpa using ih (c + 1) h

theorem processSeq_append (defs : Taxonomy) (o : Nat → OracleOutcome) (c : Nat)
    (bs1 bs2 : List (List SourceRow))
    (h1 : (processSeq defs o c bs1).2 = none) :
    processSeq defs o c (bs1 ++ bs2) =
      ((processSeq defs o c bs1).1 ++ (processSeq defs o (c + bs1.length) bs2).1,
        (processSeq defs o (c + bs1.length) bs2).2) := by
  induction bs1 generalizing c with
  | nil => simp [processSeq]
  | cons b bs ih =>
    simp only [List.cons_append, processSeq] at h1 ⊢
    cases hb : processBatch defs (o c) b with
    | mk ws err =>
      simp only [hb] at h1 ⊢
      cases err with
      | some e => simp at h1
      | none =>
        replace h1 : (processSeq defs o (c + 1) bs).2 = none := by simpa using h1
        have harith : c + 1 + bs.length = c + (bs.length + 1) := by omega
        simp only [List.length_cons]
        simp [ih (c + 1) h1, harith, List.append_assoc]

theorem processSeq_writes_flatten (defs : Taxonomy) (o : Nat → OracleOutcome) (c : Nat)
    (bs : List (List SourceRow)) (h : (processSeq defs o c bs).2 = none) :
    (processSeq defs o c bs).1 = (seqWrites defs o c bs).flatten := by
  induction bs generalizing c with
  | nil => rfl
  | cons b rest ih =>
    simp only [processSeq, seqWrites] at h ⊢
    cases hb : processBatch defs (o c) b with
    | mk ws err =>
      simp only [hb] at h ⊢
      cases err with
      | some e => simp at h
      | none =>
        replace h : (processSeq defs o (c + 1) rest).2 = none := by simpa using h
        simp [List.flatten_cons, ih (c + 1) h]

theorem streamLoop_err (B : Nat) (defs : Taxonomy) (oracle : Nat → OracleOutcome)
    (rows : List RowData) (st : LoopState) :
    (streamLoop B defs oracle rows st).2 =
      (processSeq defs oracle st.callNo
        (batchSplit B st.batch (indexRows st.rowIndex rows)).1).2 := by
  induction rows generalizing st with
  | nil => simp [streamLoop, indexRows, batchSplit, processSeq]
  | cons r rest ih =>
    simp only [streamLoop, indexRows, batchSplit]
    by_cases h : B ≤ st.batch.length + 1
    · simp only [List.length_append, List.length_cons, List.length_nil, Nat.zero_add, h,
        if_true]
      cases hb : processBatch defs (oracle st.callNo) (st.batch ++ [⟨st.rowIndex, r⟩]) with
      | mk ws err =>
        simp only [hb, processSeq]
        cases err with
        | some e => simp
        | none =>
          simpa using ih ⟨[], st.rowIndex + 1, st.callNo + 1,
            st.trace ++ [.processingBatch ((st.rowIndex + 1) / B)],
            st.writes ++ ws, st.batches ++ [st.batch ++ [⟨st.rowIndex, r⟩]]⟩
    · simp only [List.length_append, List.length_cons, List.length_nil, Nat.zero_add]
      simp only [if_neg h]
      simpa using ih { st with batch := st.batch ++ [⟨st.rowIndex, r⟩], rowIndex := st.rowIndex + 1 }

theorem streamLoop_ok (B : Nat) (defs : Taxonomy) (oracle : Nat → OracleOutcome)
    (rows : List RowData) (st : LoopState) (hB : 0 < B)
    (hlen : st.batch.length < B)
    (hidx : st.rowIndex = B * st.callNo + st.batch.length)
    (hsched : (processSeq defs oracle st.callNo
        (batchSplit B st.batch (indexRows st.rowIndex rows)).1).2 = none) :
    streamLoop B defs oracle rows st =
      ({ batch := (batchSplit B st.batch (indexRows st.rowIndex rows)).2,
         rowIndex := st.rowIndex + rows.length,
         callNo := st.callNo + (batchSplit B st.batch (indexRows st.rowIndex rows)).1.length,
         trace := st.trace ++
           (List.range' (st.callNo + 1)
             (batchSplit B st.batch (indexRows st.rowIndex rows)).1.length).map
               JobStatus.processingBatch,
         writes := st.writes ++ (processSeq defs oracle st.callNo
           (batchSplit B st.batch (indexRows st.rowIndex rows)).1).1,
         batches := st.batches ++ (batchSplit B st.batch (indexRows st.rowIndex rows)).1 },
       none) := by
  induction rows generalizing st with
  | nil =>
    simp [streamLoop, indexRows, batchSplit, processSeq]
  | cons r rest ih =>
    simp only [streamLoop, indexRows, batchSplit, List.length_append, List.length_cons,
      List.length_nil, Nat.zero_add] at hsched ⊢
    by_cases h : B ≤ st.batch.length + 1
    · have hfull : st.batch.length + 1 = B := by omega
      simp only [if_pos h, processSeq] at hsched ⊢
      cases hb : processBatch defs (oracle st.callNo) (st.batch ++ [⟨st.rowIndex, r⟩]) with
      | mk ws err =>
        simp only [hb] at hsched ⊢
        cases err with
        | some e => simp at hsched
        | none =>
          replace hsched : (processSeq defs oracle (st.callNo + 1)
              (batchSplit B [] (indexRows (st.rowIndex + 1) rest)).1).2 = none := by
            simpa using hsched
          have hidx1 : st.rowIndex + 1 = B * (st.callNo + 1) := by
            rw [Nat.mul_succ, hidx, Nat.add_assoc, hfull]
          have hdiv : (st.rowIndex + 1) / B = st.callNo + 1 := by
            rw [hidx1, Nat.mul_div_cancel_left _ hB]
          have hih := ih ⟨[], st.rowIndex + 1, st.callNo + 1,
              st.trace ++ [.processingBatch ((st.rowIndex + 1) / B)],
              st.writes ++ ws, st.batches ++ [st.batch ++ [⟨st.rowIndex, r⟩]]⟩
            (by simpa using hB) (by simpa using hidx1) (by simpa using hsched)
          simp only at hih
          refine hih.trans ?_
          rw [hdiv]
          simp [Prod.mk.injEq, LoopState.mk.injEq, List.range'_succ, List.append_assoc,
            Nat.add_assoc, Nat.add_comm, Nat.add_left_comm]
          rw [Nat.add_comm 1, List.range'_succ, List.map_cons]
    · simp only [if_neg h] at hsched ⊢
      have hih := ih { st with batch := st.batch ++ [⟨st.rowIndex, r⟩],
                               rowIndex := st.rowIndex + 1 }
        (by simp; omega) (by simp; omega) (by simpa using hsched)
      simp only at hih
      refine hih.trans ?_
      simp [Prod.mk.injEq, LoopState.mk.injEq, Nat.add_assoc, Nat.add_comm,
        Nat.add_left_comm]

theorem processSeq_single (defs : Taxonomy) (o : Nat → OracleOutcome) (c : Nat)
    (b : List SourceRow) :
    processSeq defs o c [b] = ((processBatch defs (o c) b).1, (processBatch defs (o c) b).2) := by
  simp only [processSeq]
  cases hb : processBatch defs (o c) b with
  | mk ws err => cases err <;> simp

theorem runCatch_result (gcsFile : String) (m : MainOutcome) :
    (runCatch gcsFile m).result = m.err := by
  unfold runCatch
  cases m.err with
  | none => rfl
  | some e =>
    dsimp only
    split <;> rfl

theorem runMain_ok_char (B : Nat) (bucket file : String) (defs : Taxonomy)
    (rows : List RowData) (oracle : Nat → OracleOutcome) (hB : 0 < B)
    (hbk : bucket ≠ "") (hf : file ≠ "")
    (hlen4 : 4 ≤ (splitSlash file).length)
    (hup : (splitSlash file).getD 0 "" = "uploads")
    (hok : (processSeq defs oracle 0 (jobBatches B rows)).2 = none) :
    runMainWith B bucket file (some defs) rows oracle =
      ⟨.reading :: ((List.range' 1 (rows.length / B)).map JobStatus.processingBatch)
          ++ [.completed],
       (processSeq defs oracle 0 (jobBatches B rows)).1,
       jobBatches B rows, some rows.length, none⟩ := by
  have hcount : (batchSplit B [] (indexRows 0 rows)).1.length = rows.length / B := by
    have := batchSplit_count B [] (indexRows 0 rows) hB (by simpa using hB)
    simpa using this
  have hfbs : (processSeq defs oracle 0 (batchSplit B [] (indexRows 0 rows)).1).2 = none := by
    unfold jobBatches at hok
    cases hre : (batchSplit B [] (indexRows 0 rows)).2.isEmpty with
    | true => simpa [hre] using hok
    | false =>
      simp only [hre, Bool.false_eq_true, if_false] at hok
      exact processSeq_prefix_ok defs oracle 0 _ _ hok
  unfold runMainWith
  rw [if_neg (by simp [hbk, hf])]
  rw [if_neg (not_or.mpr ⟨Nat.not_lt.mpr hlen4, fun hc => hc hup⟩)]
  dsimp only
  rw [streamLoop_ok B defs oracle rows ⟨[], 0, 0, [.reading], [], []⟩ hB
    (by simpa using hB) (by simp) (by simpa using hfbs)]
  dsimp only
  cases hre : (batchSplit B [] (indexRows 0 rows)).2.isEmpty with
  | true =>
    have hjb : jobBatches B rows = (batchSplit B [] (indexRows 0 rows)).1 := by
      simp [jobBatches, hre]
    simp [hre, hjb, hcount, MainOutcome.mk.injEq]
  | false =>
    have hjb : jobBatches B rows =
        (batchSplit B [] (indexRows 0 rows)).1 ++ [(batchSplit B [] (indexRows 0 rows)).2] := by
      simp [jobBatches, hre]
    rw [hjb] at hok ⊢
    rw [processSeq_append defs oracle 0 _ _ hfbs] at hok ⊢
    rw [processSeq_single] at hok ⊢
    simp only [hre, Bool.false_eq_true, if_false]
    cases hpb : processBatch defs
        (oracle (0 + (batchSplit B [] (indexRows 0 rows)).1.length))
        (batchSplit B [] (indexRows 0 rows)).2 with
    | mk ws err =>
      rw [hpb] at hok
      have herr : err = none := by simpa using hok
      subst herr
      simp [hcount, MainOutcome.mk.injEq]

theorem runMain_ok_inversion (B : Nat) (bucket file : String) (defs : Taxonomy)
    (rows : List RowData) (oracle : Nat → OracleOutcome) (hB : 0 < B)
    (h : (runMainWith B bucket file (some defs) rows oracle).err = none) :
    bucket ≠ "" ∧ file ≠ "" ∧ 4 ≤ (splitSlash file).length ∧
      (splitSlash file).getD 0 "" = "uploads" ∧
      (processSeq defs oracle 0 (jobBatches B rows)).2 = none := by
  unfold runMainWith at h
  by_cases hargs : bucket = "" ∨ file = ""
  · rw [if_pos hargs] at h
    simp at h
  · rw [if_neg hargs] at h
    push_neg at hargs
    by_cases hpath : (splitSlash file).length < 4 ∨ (splitSlash file).getD 0 "" ≠ "uploads"
    · rw [if_pos hpath] at h
      simp at h
    · rw [if_neg hpath] at h
      push_neg at hpath
      refine ⟨hargs.1, hargs.2, by omega, hpath.2, ?_⟩
      dsimp only at h
      have hfbs : (processSeq defs oracle 0 (batchSplit B [] (indexRows 0 rows)).1).2 =
          none := by
        have hse := streamLoop_err B defs oracle rows ⟨[], 0, 0, [.reading], [], []⟩
        cases hsl : streamLoop B defs oracle rows ⟨[], 0, 0, [.reading], [], []⟩ with
        | mk st err =>
          cases err with
          | some e => rw [hsl] at h; simp at h
          | none => rw [hsl] at hse; simpa using hse.symm
      rw [streamLoop_ok B defs oracle rows _ hB (by simpa using hB) (by simp)
        (by simpa using hfbs)] at h
      dsimp only at h
      cases hre : (batchSplit B [] (indexRows 0 rows)).2.isEmpty with
      | true =>
        have hjb : jobBatches B rows = (batchSplit B [] (indexRows 0 rows)).1 := by
          simp [jobBatches, hre]
        rw [hjb]
        exact hfbs
      | false =>
        have hjb : jobBatches B rows =
            (batchSplit B [] (indexRows 0 rows)).1 ++
              [(batchSplit B [] (indexRows 0 rows)).2] := by
          simp [jobBatches, hre]
        rw [hjb, processSeq_append defs oracle 0 _ _ hfbs, processSeq_single]
        simp only [hre, Bool.false_eq_true, if_false] at h
        cases hpb : processBatch defs
            (oracle (0 + (batchSplit B [] (indexRows 0 rows)).1.length))
            (batchSplit B [] (indexRows 0 rows)).2 with
        | mk ws err =>
          cases err with
          | some e =>
            rw [Nat.zero_add] at hpb
            simp [hpb] at h
          | none => simp

theorem runJob_ok_char (B : Nat) (bucket file : String) (defs : Taxonomy)
    (rows : List RowData) (oracle : Nat → OracleOutcome) (hB : 0 < B)
    (h : (runJobWith B bucket file (some defs) rows oracle).result = none) :
    runJobWith B bucket file (some defs) rows oracle =
      ⟨.reading :: ((List.range' 1 (rows.length / B)).map JobStatus.processingBatch)
          ++ [.completed],
       (processSeq defs oracle 0 (jobBatches B rows)).1,
       jobBatches B rows, some rows.length, none, none⟩ := by
  have hm : (runMainWith B bucket file (some defs) rows oracle).err = none := by
    rw [← runCatch_result file]
    exact h
  obtain ⟨hbk, hf, hlen4, hup, hok⟩ := runMain_ok_inversion B bucket file defs rows oracle hB hm
  unfold runJobWith
  rw [runMain_ok_char B bucket file defs rows oracle hB hbk hf hlen4 hup hok]
  rfl

theorem mkRowDoc_eq (rowData : RowData) (rowIndex : Nat) (cls : Classification) :
    mkRowDoc rowData rowIndex cls =
      [("original_data", .vdata rowData), ("cost_pool", .vjson cls.cost_pool),
       ("cost_sub_pool", .vjson cls.cost_sub_pool),
       ("confidence", .vnum (numOrZero (toNumber cls.confidence))),
       ("reasoning", .vjson cls.reasoning), ("row_index", .vnat rowIndex)] := rfl

theorem streamLoop_writes_mem (B : Nat) (defs : Taxonomy) (oracle : Nat → OracleOutcome)
    (rows : List RowData) (st : LoopState) (w : RowWrite)
    (hw : w ∈ (streamLoop B defs oracle rows st).1.writes) :
    w ∈ st.writes ∨ ∃ o b, w ∈ (processBatch defs o b).1 := by
  induction rows generalizing st with
  | nil => exact Or.inl hw
  | cons r rest ih =>
    simp only [streamLoop] at hw
    by_cases h : B ≤ st.batch.length + 1
    · rw [if_pos (by simpa using h)] at hw
      cases hb : processBatch defs (oracle st.callNo) (st.batch ++ [⟨st.rowIndex, r⟩]) with
      | mk ws err =>
        rw [hb] at hw
        cases err with
        | some e =>
          simp only at hw
          rcases List.mem_append.mp hw with hw | hw
          · exact Or.inl hw
          · exact Or.inr ⟨oracle st.callNo, st.batch ++ [⟨st.rowIndex, r⟩], by rw [hb]; exact hw⟩
        | none =>
          rcases ih _ hw with hw | hw
          · rcases List.mem_append.mp hw with hw | hw
            · exact Or.inl hw
            · exact Or.inr ⟨oracle st.callNo, st.batch ++ [⟨st.rowIndex, r⟩], by rw [hb]; exact hw⟩
          · exact Or.inr hw
    · rw [if_neg (by simpa using h)] at hw
      exact ih { st with batch := st.batch ++ [⟨st.rowIndex, r⟩],
                         rowIndex := st.rowIndex + 1 } hw

theorem runJobWith_writes_mem (B : Nat) (bucket file : String) (defs : Taxonomy)
    (rows : List RowData) (oracle : Nat → OracleOutcome) (w : RowWrite)
    (hw : w ∈ (runJobWith B bucket file (some defs) rows oracle).writes) :
    ∃ o b, w ∈ (processBatch defs o b).1 := by
  have hrc : (runJobWith B bucket file (some defs) rows oracle).writes =
      (runMainWith B bucket file (some defs) rows oracle).writes := by
    unfold runJobWith runCatch
    cases (runMainWith B bucket file (some defs) rows oracle).err with
    | none => rfl
    | some e =>
      dsimp only
      split <;> rfl
  rw [hrc] at hw
  unfold runMainWith at hw
  by_cases hargs : bucket = "" ∨ file = ""
  · rw [if_pos hargs] at hw
    simp at hw
  · rw [if_neg hargs] at hw
    by_cases hpath : (splitSlash file).length < 4 ∨ (splitSlash file).getD 0 "" ≠ "uploads"
    · rw [if_pos hpath] at hw
      simp at hw
    · rw [if_neg hpath] at hw
      dsimp only at hw
      cases hsl : streamLoop B defs oracle rows ⟨[], 0, 0, [.reading], [], []⟩ with
      | mk st err =>
        rw [hsl] at hw
        have hmem : w ∈ st.writes → ∃ o b, w ∈ (processBatch defs o b).1 := by
          intro hmem
          have := streamLoop_writes_mem B defs oracle rows ⟨[], 0, 0, [.reading], [], []⟩ w
            (by rw [hsl]; exact hmem)
          rcases this with hthis | hthis
          · simp at hthis
          · exact hthis
        cases err with
        | some e =>
          dsimp only at hw
          exact hmem hw
        | none =>
          dsimp only at hw
          by_cases hbe : st.batch.isEmpty
          · rw [if_pos hbe] at hw
            exact hmem hw
          · rw [if_neg hbe] at hw
            cases hpb : processBatch defs (oracle st.callNo) st.batch with
            | mk ws err2 =>
              rw [hpb] at hw
              cases err2 with
              | some e =>
                simp only at hw
                rcases List.mem_append.mp hw with hw | hw
                · exact hmem hw
                · exact ⟨oracle st.callNo, st.batch, by rw [hpb]; exact hw⟩
              | none =>
                simp only at hw
                rcases List.mem_append.mp hw with hw | hw
                · exact hmem hw
                · exact ⟨oracle st.callNo, st.batch, by rw [hpb]; exact hw⟩

theorem classifyRow_integrity (defs : Taxonomy) (res : Option OracleEntry)
    (cls : Classification) (hc : classifyRow defs res = .ok cls) :
    (cls.cost_pool = .jstr "Unclassified" ∧ cls.cost_sub_pool = .jstr "Unclassified") ∨
    (∃ pr, defs.find? (fun q => q.1 == cls.cost_pool.asKey) = some pr ∧
      ∃ sp ∈ pr.2.sub_pools, cls.cost_sub_pool = .jstr sp.name) := by
  unfold classifyRow at hc
  cases res with
  | none =>
    dsimp only at hc
    simp only [Except.ok.injEq] at hc
    subst hc
    exact Or.inl ⟨rfl, rfl⟩
  | some r =>
    dsimp only at hc
    by_cases ht : r.cost_pool.truthy
    · rw [if_pos ht] at hc
      unfold taxonomyLookup at hc
      cases hfind : defs.find? (fun p => p.1 == r.cost_pool.asKey) with
      | none =>
        rw [hfind] at hc
        cases hp : protoProps.contains r.cost_pool.asKey with
        | true =>
          have hmem : r.cost_pool.asKey ∈ protoProps := by simpa using hp
          simp [hmem] at hc
        | false =>
          simp only [hp, Bool.false_eq_true, if_false, Except.ok.injEq] at hc
          subst hc
          exact Or.inl ⟨rfl, rfl⟩
      | some pr =>
        rw [hfind] at hc
        simp only at hc
        by_cases hany : pr.2.sub_pools.any (fun sp => r.cost_sub_pool == .jstr sp.name)
        · rw [if_pos hany] at hc
          simp only [Except.ok.injEq] at hc
          subst hc
          rcases List.any_eq_true.mp hany with ⟨sp, hsp, heq⟩
          exact Or.inr ⟨pr, by simpa using hfind, sp, hsp, by simpa using heq⟩
        · rw [if_neg hany] at hc
          simp only [Except.ok.injEq] at hc
          subst hc
          exact Or.inl ⟨rfl, rfl⟩
    · rw [if_neg ht] at hc
      simp only [Except.ok.injEq] at hc
      subst hc
      exact Or.inl ⟨rfl, rfl⟩

theorem falsy_numOrZero (v : JVal) (h : v.truthy = false) :
    numOrZero (toNumber v) = .finite 0 := by
  cases v with
  | jnum q =>
    simp only [JVal.truthy, bne_eq_false_iff_eq] at h
    subst h
    rfl
  | jstr s =>
    simp only [JVal.truthy, bne_eq_false_iff_eq] at h
    subst h
    rfl
  | jbool b =>
    simp only [JVal.truthy] at h
    subst h
    rfl
  | jnull => rfl
  | jabsent => rfl

theorem classifyRow_confidence (defs : Taxonomy) (res : Option OracleEntry)
    (cls : Classification) (hc : classifyRow defs res = .ok cls)
    (hne : cls ≠ fallbackClassification) :
    ∃ r, res = some r ∧
      cls.confidence = (if r.confidence.truthy then r.confidence else .jnum 0) := by
  cases res with
  | none =>
    simp only [classifyRow, Except.ok.injEq] at hc
    exact absurd hc.symm hne
  | some r =>
    refine ⟨r, rfl, ?_⟩
    simp only [classifyRow] at hc
    by_cases ht : r.cost_pool.truthy
    · rw [if_pos ht] at hc
      cases hl : taxonomyLookup defs r.cost_pool.asKey with
      | ownPool pool =>
        rw [hl] at hc
        dsimp only at hc
        by_cases hs : pool.sub_pools.any (fun sp => r.cost_sub_pool == .jstr sp.name)
        · rw [if_pos hs] at hc
          simp only [Except.ok.injEq] at hc
          rw [← hc]
        · rw [if_neg hs] at hc
          simp only [Except.ok.injEq] at hc
          exact absurd hc.symm hne
      | inherited =>
        rw [hl] at hc
        simp at hc
      | notPresent =>
        rw [hl] at hc
        simp only [Except.ok.injEq] at hc
        exact absurd hc.symm hne
    · rw [if_neg ht] at hc
      simp only [Except.ok.injEq] at hc
      exact absurd hc.symm hne

theorem docGet_cost_pool (d : RowData) (i : Nat) (cls : Classification) :
    docGet (mkRowDoc d i cls) "cost_pool" = some (.vjson cls.cost_pool) := rfl

theorem docGet_cost_sub_pool (d : RowData) (i : Nat) (cls : Classification) :
    docGet (mkRowDoc d i cls) "cost_sub_pool" = some (.vjson cls.cost_sub_pool) := rfl

theorem docGet_confidence (d : RowData) (i : Nat) (cls : Classification) :
    docGet (mkRowDoc d i cls) "confidence" =
      some (.vnum (numOrZero (toNumber cls.confidence))) := rfl

theorem mkRowDoc_keys (d : RowData) (i : Nat) (cls : Classification) :
    (mkRowDoc d i cls).map Prod.fst =
      ["original_data", "cost_pool", "cost_sub_pool", "confidence", "reasoning",
       "row_index"] := rfl

theorem processSeq_idx (defs : Taxonomy) (o : Nat → OracleOutcome) (c : Nat)
    (bs : List (List SourceRow)) (h : (processSeq defs o c bs).2 = none) :
    (processSeq defs o c bs).1.map RowWrite.rowIndex = bs.flatten.map SourceRow.index := by
  induction bs generalizing c with
  | nil => rfl
  | cons b rest ih =>
    simp only [processSeq, List.flatten_cons] at h ⊢
    cases hb : processBatch defs (o c) b with
    | mk ws err =>
      simp only [hb] at h ⊢
      cases err with
      | some e => simp at h
      | none =>
        replace h : (processSeq defs o (c + 1) rest).2 = none := by simpa using h
        have hbi := processBatch_idx defs (o c) b (by rw [hb])
        rw [hb] at hbi
        simp only [List.map_append]
        rw [hbi, ih (c + 1) h]

theorem processSeq_failure (defs : Taxonomy) (c : Nat) (bs : List (List SourceRow)) :
    (processSeq defs (fun _ => OracleOutcome.failure) c bs).2 = none := by
  induction bs generalizing c with
  | nil => rfl
  | cons b rest ih => simp [processSeq, processBatch_failure, ih (c + 1)]

theorem processSeq_of_batches (defs : Taxonomy) (o : Nat → OracleOutcome) (c : Nat)
    (bs : List (List SourceRow))
    (h : ∀ i, i < bs.length → (processBatch defs (o (c + i)) (bs.getD i [])).2 = none) :
    (processSeq defs o c bs).2 = none := by
  induction bs generalizing c with
  | nil => rfl
  | cons b rest ih =>
    have hb0 := h 0 (by simp)
    simp only [List.getD_cons_zero, Nat.add_zero] at hb0
    simp only [processSeq]
    cases hb : processBatch defs (o c) b with
    | mk ws err =>
      rw [hb] at hb0
      simp only at hb0
      subst hb0
      have := ih (c + 1) (fun i hi => by
        have := h (i + 1) (by simpa using hi)
        simpa [Nat.add_assoc, Nat.add_comm 1 i] using this)
      rcases hps : processSeq defs o (c + 1) rest with ⟨ws1, e1⟩
      rw [hps] at this
      simpa [hps] using this

theorem processSeq_batches_ok (defs : Taxonomy) (o : Nat → OracleOutcome) (c : Nat)
    (bs : List (List SourceRow)) (h : (processSeq defs o c bs).2 = none) :
    ∀ i, i < bs.length → (processBatch defs (o (c + i)) (bs.getD i [])).2 = none := by
  induction bs generalizing c with
  | nil => intro i hi; simp at hi
  | cons b rest ih =>
    intro i hi
    simp only [processSeq] at h
    cases hb : processBatch defs (o c) b with
    | mk ws err =>
      simp only [hb] at h
      cases err with
      | some e => simp at h
      | none =>
        replace h : (processSeq defs o (c + 1) rest).2 = none := by simpa using h
        cases i with
        | zero => simp [hb]
        | succ j =>
          have := ih (c + 1) h j (by simpa using hi)
          simpa [Nat.add_assoc, Nat.add_comm 1 j] using this

theorem seqWrites_length (defs : Taxonomy) (o : Nat → OracleOutcome) (c : Nat)
    (bs : List (List SourceRow)) : (seqWrites defs o c bs).length = bs.length := by
  induction bs generalizing c with
  | nil => rfl
  | cons b rest ih => simp [seqWrites, ih (c + 1)]

theorem seqWrites_getD (defs : Taxonomy) (o : Nat → OracleOutcome) (c : Nat)
    (bs : List (List SourceRow)) (i : Nat) (hi : i < bs.length) :
    (seqWrites defs o c bs).getD i [] =
      (processBatch defs (o (c + i)) (bs.getD i [])).1 := by
  induction bs generalizing c i with
  | nil => simp at hi
  | cons b rest ih =>
    cases i with
    | zero => simp [seqWrites]
    | succ j =>
      have := ih (c + 1) j (by simpa using hi)
      simpa [seqWrites, Nat.add_assoc, Nat.add_comm 1 j] using this

theorem jobBatches_flatten (B : Nat) (rows : List RowData) :
    (jobBatches B rows).flatten = indexRows 0 rows := by
  have hj := batchSplit_join B [] (indexRows 0 rows)
  unfold jobBatches
  cases hre : (batchSplit B [] (indexRows 0 rows)).2.isEmpty with
  | true =>
    have h0 : (batchSplit B [] (indexRows 0 rows)).2 = [] := by simpa using hre
    rw [h0] at hj
    simpa [h0] using hj
  | false =>
    have h0 : ¬(batchSplit B [] (indexRows 0 rows)).2 = [] := by
      intro hc
      simp [hc] at hre
    simpa [h0] using hj

theorem jobBatches_nil (B : Nat) : jobBatches B [] = [] := by
  simp [jobBatches, indexRows, batchSplit]

theorem ceilDiv_eq (B K : Nat) (hB : 0 < B) :
    (K + B - 1) / B = K / B + (if K % B = 0 then 0 else 1) := by
  have hdm := Nat.div_add_mod K B
  by_cases hr : K % B = 0
  · have h1 : K + B - 1 = B * (K / B) + (B - 1) := by omega
    rw [h1, Nat.mul_add_div hB, Nat.div_eq_of_lt (show B - 1 < B by omega)]
    simp [hr]
  · have hrlt : K % B < B := Nat.mod_lt K hB
    have h1 : K + B - 1 = B * (K / B + 1) + (K % B - 1) := by
      rw [Nat.mul_succ]
      omega
    rw [h1, Nat.mul_add_div hB, Nat.div_eq_of_lt (show K % B - 1 < B by omega)]
    simp [hr]

theorem jobBatches_length (B : Nat) (rows : List RowData) (hB : 0 < B) :
    (jobBatches B rows).length = (rows.length + B - 1) / B := by
  have hcount : (batchSplit B [] (indexRows 0 rows)).1.length = rows.length / B := by
    have := batchSplit_count B [] (indexRows 0 rows) hB (by simpa using hB)
    simpa using this
  have hrem : (batchSplit B [] (indexRows 0 rows)).2.length = rows.length % B := by
    have := batchSplit_rem B [] (indexRows 0 rows) hB (by simpa using hB)
    simpa using this
  rw [ceilDiv_eq B rows.length hB]
  unfold jobBatches
  cases hre : (batchSplit B [] (indexRows 0 rows)).2.isEmpty with
  | true =>
    have h2 : (batchSplit B [] (indexRows 0 rows)).2 = [] := by simpa using hre
    have h0 : rows.length % B = 0 := by
      rw [← hrem, h2]
      rfl
    simp [h2, hcount, h0]
  | false =>
    have h2 : ¬(batchSplit B [] (indexRows 0 rows)).2 = [] := by
      intro hc
      simp [hc] at hre
    have h0 : rows.length % B ≠ 0 := by
      rw [← hrem]
      intro hc
      rw [List.length_eq_zero] at hc
      exact h2 hc
    simp [h2, hcount, h0]

end PipelineLemmas

section Claims

/-- C1: Taxonomy integrity: for every row-result document the pipeline
writes, whatever mapping the oracle returns, the stored `cost_pool` is a
key of the loaded taxonomy or the sentinel `"Unclassified"`; if it is the
sentinel then `cost_sub_pool` is the sentinel too; otherwise
`cost_sub_pool` names one of that exact pool's `sub_pools` (with the
sentinel, per the spec's convention, not itself a taxonomy key). -/
theorem taxonomy_integrity (B : Nat) (bucket file : String) (defs : Taxonomy)
    (rows : List RowData) (oracle : Nat → OracleOutcome)
    (hU : "Unclassified" ∉ defs.map Prod.fst) (w : RowWrite)
    (hw : w ∈ (runJobWith B bucket file (some defs) rows oracle).writes) :
    ∃ pv sv : JVal,
      docGet w.doc "cost_pool" = some (.vjson pv) ∧
      docGet w.doc "cost_sub_pool" = some (.vjson sv) ∧
      (pv.asKey ∈ defs.map Prod.fst ∨ pv = .jstr "Unclassified") ∧
      (pv = .jstr "Unclassified" → sv = .jstr "Unclassified") ∧
      (pv ≠ .jstr "Unclassified" →
        ∃ pr, defs.find? (fun q => q.1 == pv.asKey) = some pr ∧
          ∃ sp ∈ pr.2.sub_pools, sv = .jstr sp.name) := by
  obtain ⟨o, b, hpb⟩ := runJobWith_writes_mem B bucket file defs rows oracle w hw
  obtain ⟨row, hrow, cls, hcls, hweq⟩ := processBatch_mem defs o b w hpb
  subst hweq
  refine ⟨cls.cost_pool, cls.cost_sub_pool, docGet_cost_pool _ _ _,
    docGet_cost_sub_pool _ _ _, ?_, ?_, ?_⟩
  · rcases classifyRow_integrity defs _ cls hcls with ⟨hp, _⟩ | ⟨pr, hfind, _⟩
    · exact Or.inr hp
    · left
      have hmem := List.mem_of_find?_eq_some hfind
      have hkey : pr.1 = cls.cost_pool.asKey := by
        have := List.find?_some hfind
        simpa using this
      exact hkey ▸ List.mem_map_of_mem Prod.fst hmem
  · intro hpU
    rcases classifyRow_integrity defs _ cls hcls with ⟨_, hs⟩ | ⟨pr, hfind, _⟩
    · exact hs
    · exfalso
      have hmem := List.mem_of_find?_eq_some hfind
      have hkey : pr.1 = cls.cost_pool.asKey := by
        have := List.find?_some hfind
        simpa using this
      apply hU
      have : pr.1 = "Unclassified" := by rw [hkey, hpU]; rfl
      exact this ▸ List.mem_map_of_mem Prod.fst hmem
  · intro hpne
    rcases classifyRow_integrity defs _ cls hcls with ⟨hp, _⟩ | ⟨pr, hfind, sp, hsp, hs⟩
    · exact absurd hp hpne
    · exact ⟨pr, hfind, sp, hsp, hs⟩

/-- Witness for C1 at a concrete run: `runHW` writes one document, whose
pool pair lies in the concrete taxonomy. -/
theorem taxonomy_integrity_witness :
    ("Unclassified" ∉ defsEx.map Prod.fst) ∧
    (runHW.writes.headD ⟨0, []⟩ ∈ runHW.writes) ∧
    (∃ pv sv : JVal,
      docGet (runHW.writes.headD ⟨0, []⟩).doc "cost_pool" = some (.vjson pv) ∧
      docGet (runHW.writes.headD ⟨0, []⟩).doc "cost_sub_pool" = some (.vjson sv) ∧
      (pv.asKey ∈ defsEx.map Prod.fst ∨ pv = .jstr "Unclassified") ∧
      (pv = .jstr "Unclassified" → sv = .jstr "Unclassified") ∧
      (pv ≠ .jstr "Unclassified" →
        ∃ pr, defsEx.find? (fun q => q.1 == pv.asKey) = some pr ∧
          ∃ sp ∈ pr.2.sub_pools, sv = .jstr sp.name)) :=
  have hmem : runHW.writes.headD ⟨0, []⟩ ∈ runHW.writes := by
    rw [show runHW.writes = [runHW.writes.headD ⟨0, []⟩] from rfl]
    exact List.mem_singleton.mpr rfl
  ⟨by decide, hmem,
   taxonomy_integrity 50 "bucket" "uploads/acme/job1/data.csv" defsEx
     [[("desc", "laptop")]] oracleHW (by decide) _ hmem⟩

/-- C2: Row conservation: for every job run that completes, the pipeline
buffers exactly one row document per index `0..K-1`, in stream order with
no gaps or duplicates, and the final `totalRows` equals `K`, the number
of rows read from the source. -/
theorem row_conservation (B : Nat) (bucket file : String) (defs : Taxonomy)
    (rows : List RowData) (oracle : Nat → OracleOutcome) (hB : 0 < B)
    (h : (runJobWith B bucket file (some defs) rows oracle).result = none) :
    (runJobWith B bucket file (some defs) rows oracle).writes.map RowWrite.rowIndex =
      List.range rows.length ∧
    (runJobWith B bucket file (some defs) rows oracle).totalRows = some rows.length := by
  have hm : (runMainWith B bucket file (some defs) rows oracle).err = none := by
    rw [← runCatch_result file]
    exact h
  obtain ⟨_, _, _, _, hok⟩ := runMain_ok_inversion B bucket file defs rows oracle hB hm
  rw [runJob_ok_char B bucket file defs rows oracle hB h]
  refine ⟨?_, rfl⟩
  have hidx := processSeq_idx defs oracle 0 (jobBatches B rows) hok
  dsimp only
  rw [hidx, jobBatches_flatten, indexRows_map_index]
  exact (List.range_eq_range' rows.length).symm

/-- Witness for C2: the one-row run `runHW` completes with one document
at index 0 and `totalRows = 1`. -/
theorem row_conservation_witness :
    (0 < 50) ∧ runHW.result = none ∧
    (runHW.writes.map RowWrite.rowIndex = List.range 1 ∧ runHW.totalRows = some 1) :=
  ⟨by decide, by decide,
   row_conservation 50 "bucket" "uploads/acme/job1/data.csv" defsEx
     [[("desc", "laptop")]] oracleHW (by decide) (by decide)⟩

/-- C5: Batch partition correctness: a completed run with `K` rows and
batch size `B` performs exactly `ceil(K/B)` batch calls; every batch but
the last holds exactly `B` rows, the last holds `K mod B` rows (`B` when
`B` divides `K`), the batches concatenate to the indexed row stream in
order, and `K = 0` produces no batch at all. -/
theorem batch_partition (B : Nat) (bucket file : String) (defs : Taxonomy)
    (rows : List RowData) (oracle : Nat → OracleOutcome) (hB : 0 < B)
    (h : (runJobWith B bucket file (some defs) rows oracle).result = none) :
    (runJobWith B bucket file (some defs) rows oracle).batches.length =
      (rows.length + B - 1) / B ∧
    (∀ bt ∈ (runJobWith B bucket file (some defs) rows oracle).batches.dropLast,
      bt.length = B) ∧
    (∀ bt ∈ (runJobWith B bucket file (some defs) rows oracle).batches.getLast?,
      bt.length = if rows.length % B = 0 then B else rows.length % B) ∧
    (runJobWith B bucket file (some defs) rows oracle).batches.flatten =
      indexRows 0 rows ∧
    (rows.length = 0 → (runJobWith B bucket file (some defs) rows oracle).batches = []) := by
  rw [runJob_ok_char B bucket file defs rows oracle hB h]
  dsimp only
  have hcount : (batchSplit B [] (indexRows 0 rows)).1.length = rows.length / B := by
    have := batchSplit_count B [] (indexRows 0 rows) hB (by simpa using hB)
    simpa using this
  have hrem : (batchSplit B [] (indexRows 0 rows)).2.length = rows.length % B := by
    have := batchSplit_rem B [] (indexRows 0 rows) hB (by simpa using hB)
    simpa using this
  have hsz := batchSplit_sizes B [] (indexRows 0 rows) hB (by simpa using hB)
  refine ⟨jobBatches_length B rows hB, ?_, ?_, jobBatches_flatten B rows, ?_⟩
  · intro bt hbt
    simp only [jobBatches] at hbt
    cases hre : (batchSplit B [] (indexRows 0 rows)).2.isEmpty with
    | true =>
      have h2 : (batchSplit B [] (indexRows 0 rows)).2 = [] := by simpa using hre
      rw [h2] at hbt
      simp only [List.isEmpty_nil, if_true] at hbt
      exact hsz bt (List.dropLast_subset _ hbt)
    | false =>
      have h2 : ¬(batchSplit B [] (indexRows 0 rows)).2 = [] := by
        intro hc
        simp [hc] at hre
      rw [if_neg (by simpa using h2)] at hbt
      rw [List.dropLast_concat] at hbt
      exact hsz bt hbt
  · intro bt hbt
    simp only [jobBatches] at hbt
    cases hre : (batchSplit B [] (indexRows 0 rows)).2.isEmpty with
    | true =>
      have h2 : (batchSplit B [] (indexRows 0 rows)).2 = [] := by simpa using hre
      have h0 : rows.length % B = 0 := by
        rw [← hrem, h2]
        rfl
      rw [h2] at hbt
      simp only [List.isEmpty_nil, if_true] at hbt
      have hmem : bt ∈ (batchSplit B [] (indexRows 0 rows)).1 := by
        obtain ⟨hne, heq⟩ := List.mem_getLast?_eq_getLast hbt
        rw [heq]
        exact List.getLast_mem hne
      rw [h0, if_pos rfl]
      exact hsz bt hmem
    | false =>
      have h2 : ¬(batchSplit B [] (indexRows 0 rows)).2 = [] := by
        intro hc
        simp [hc] at hre
      have h0 : rows.length % B ≠ 0 := by
        rw [← hrem]
        intro hc
        exact h2 (List.length_eq_zero.mp hc)
      rw [if_neg (by simpa using h2)] at hbt
      rw [List.getLast?_concat, Option.mem_def, Option.some.injEq] at hbt
      subst hbt
      rw [if_neg h0]
      exact hrem
  · intro h0
    have hnil : rows = [] := List.length_eq_zero.mp h0
    subst hnil
    exact jobBatches_nil B

/-- Witness for C5: a five-row run with batch size 2 completes with three
batches of sizes 2, 2, 1 covering indices 0..4. -/
theorem batch_partition_witness :
    (0 < 2) ∧
    (runJobWith 2 "b" "uploads/t/j/f.csv" (some defsEx) rows5 oracleAll5).result = none ∧
    ((runJobWith 2 "b" "uploads/t/j/f.csv" (some defsEx) rows5 oracleAll5).batches.length =
        (rows5.length + 2 - 1) / 2 ∧
      (∀ bt ∈ (runJobWith 2 "b" "uploads/t/j/f.csv" (some defsEx) rows5
          oracleAll5).batches.dropLast, bt.length = 2) ∧
      (∀ bt ∈ (runJobWith 2 "b" "uploads/t/j/f.csv" (some defsEx) rows5
          oracleAll5).batches.getLast?,
        bt.length = if rows5.length % 2 = 0 then 2 else rows5.length % 2) ∧
      (runJobWith 2 "b" "uploads/t/j/f.csv" (some defsEx) rows5 oracleAll5).batches.flatten =
        indexRows 0 rows5 ∧
      (rows5.length = 0 →
        (runJobWith 2 "b" "uploads/t/j/f.csv" (some defsEx) rows5 oracleAll5).batches = [])) :=
  ⟨by decide, by decide,
   batch_partition 2 "b" "uploads/t/j/f.csv" defsEx rows5 oracleAll5 (by decide) (by decide)⟩

/-- C6 (amended): the job status is set to `processing_batch_N`
immediately before the Nth batch only for the `floor(K/B)` full batches;
the final partial batch is processed with no status update, so a
completed run's status sequence is `reading`, then `processing_batch_1`
through `processing_batch_{K div B}`, then `completed`. -/
theorem status_sequence (B : Nat) (bucket file : String) (defs : Taxonomy)
    (rows : List RowData) (oracle : Nat → OracleOutcome) (hB : 0 < B)
    (h : (runJobWith B bucket file (some defs) rows oracle).result = none) :
    (runJobWith B bucket file (some defs) rows oracle).trace =
      .reading :: ((List.range' 1 (rows.length / B)).map JobStatus.processingBatch)
        ++ [.completed] := by
  rw [runJob_ok_char B bucket file defs rows oracle hB h]

/-- Witness for the amended C6: the five-row, batch-size-2 run shows
`reading, processing_batch_1, processing_batch_2, completed` — no status
update for the final partial third batch. -/
theorem status_sequence_witness :
    (0 < 2) ∧
    (runJobWith 2 "b" "uploads/t/j/f.csv" (some defsEx) rows5 oracleAll5).result = none ∧
    (runJobWith 2 "b" "uploads/t/j/f.csv" (some defsEx) rows5 oracleAll5).trace =
      .reading :: ((List.range' 1 (rows5.length / 2)).map JobStatus.processingBatch)
        ++ [.completed] :=
  ⟨by decide, by decide,
   status_sequence 2 "b" "uploads/t/j/f.csv" defsEx rows5 oracleAll5 (by decide) (by decide)⟩

set_option maxRecDepth 100000 in
/-- C6 counterexample: a 120-row source with batch size 50 completes with
`totalRows = 120`, but its status sequence is `reading`,
`processing_batch_1`, `processing_batch_2`, `completed` — the claimed
`processing_batch_3` before the final partial batch never appears. -/
theorem status_sequence_counterexample :
    (runJob "bucket" "uploads/acme/job9/data.csv" (some defsEx)
        (List.replicate 120 []) (fun _ => .failure)).trace =
      [.reading, .processingBatch 1, .processingBatch 2, .completed] ∧
    (runJob "bucket" "uploads/acme/job9/data.csv" (some defsEx)
        (List.replicate 120 []) (fun _ => .failure)).totalRows = some 120 ∧
    (runJob "bucket" "uploads/acme/job9/data.csv" (some defsEx)
        (List.replicate 120 []) (fun _ => .failure)).trace ≠
      [.reading, .processingBatch 1, .processingBatch 2, .processingBatch 3,
       .completed] := by
  have hchar := runMain_ok_char BATCH_SIZE "bucket" "uploads/acme/job9/data.csv" defsEx
    (List.replicate 120 []) (fun _ => .failure) (by decide) (by decide) (by decide)
    (by decide) (by decide) (processSeq_failure defsEx 0 _)
  have hjob : runJob "bucket" "uploads/acme/job9/data.csv" (some defsEx)
      (List.replicate 120 []) (fun _ => .failure) =
      runCatch "uploads/acme/job9/data.csv"
        (runMainWith BATCH_SIZE "bucket" "uploads/acme/job9/data.csv" (some defsEx)
          (List.replicate 120 []) (fun _ => .failure)) := rfl
  rw [hjob, hchar]
  refine ⟨?_, rfl, ?_⟩
  · show JobStatus.reading ::
      ((List.range' 1 ((List.replicate 120 ([] : RowData)).length / BATCH_SIZE)).map
        JobStatus.processingBatch) ++ [JobStatus.completed] = _
    norm_num [BATCH_SIZE, List.range']
  · show JobStatus.reading ::
      ((List.range' 1 ((List.replicate 120 ([] : RowData)).length / BATCH_SIZE)).map
        JobStatus.processingBatch) ++ [JobStatus.completed] ≠ _
    norm_num [BATCH_SIZE, List.range']

/-- C7 counterexample: the source path `uploads/acme/job42/data.csv`
(three segments after `uploads`, four segments in total) passes the path
check: the invocation runs to completion instead of failing with
`InvalidSourcePath`. -/
theorem invalid_path_counterexample :
    (runJob "bucket" "uploads/acme/job42/data.csv" (some defsEx) []
        (fun _ => .failure)).result = none ∧
    (runJob "bucket" "uploads/acme/job42/data.csv" (some defsEx) []
        (fun _ => .failure)).trace = [.reading, .completed] :=
  ⟨by decide, by decide⟩

/-- C7 (amended): a source path with fewer than 4 slash-separated
segments, or whose first segment is not `uploads`, fails immediately
before any row is read: no write is buffered, no batch is processed,
`totalRows` is never set, and the job record sees no status other than
(possibly) `failed`.  A path with exactly three segments after
`uploads`, such as `uploads/acme/job42/data.csv`, has four segments and
is accepted. -/
theorem invalid_path_rejected (B : Nat) (bucket file : String)
    (defs? : Option Taxonomy) (rows : List RowData) (oracle : Nat → OracleOutcome)
    (hbk : bucket ≠ "") (hf : file ≠ "")
    (hpath : (splitSlash file).length < 4 ∨ (splitSlash file).getD 0 "" ≠ "uploads") :
    (runJobWith B bucket file defs? rows oracle).result = some .invalidSourcePath ∧
    (runJobWith B bucket file defs? rows oracle).writes = [] ∧
    (runJobWith B bucket file defs? rows oracle).batches = [] ∧
    (runJobWith B bucket file defs? rows oracle).totalRows = none ∧
    (∀ s ∈ (runJobWith B bucket file defs? rows oracle).trace, s = .failed) := by
  have hmain : runMainWith B bucket file defs? rows oracle =
      ⟨[], [], [], none, some .invalidSourcePath⟩ := by
    unfold runMainWith
    rw [if_neg (by simp [hbk, hf]), if_pos hpath]
  unfold runJobWith
  rw [hmain]
  unfold runCatch
  dsimp only
  split
  · refine ⟨rfl, rfl, rfl, rfl, ?_⟩
    intro s hs
    simpa using hs
  · refine ⟨rfl, rfl, rfl, rfl, ?_⟩
    intro s hs
    simp at hs

/-- Witness for the amended C7: the two-segment path `uploads/short` is
rejected before any row is read. -/
theorem invalid_path_rejected_witness :
    ("b" ≠ "") ∧ ("uploads/short" ≠ "") ∧
    ((splitSlash "uploads/short").length < 4 ∨
      (splitSlash "uploads/short").getD 0 "" ≠ "uploads") ∧
    ((runJobWith 50 "b" "uploads/short" (some defsEx) [[("a", "1")]]
        (fun _ => .failure)).result = some .invalidSourcePath ∧
      (runJobWith 50 "b" "uploads/short" (some defsEx) [[("a", "1")]]
        (fun _ => .failure)).writes = [] ∧
      (runJobWith 50 "b" "uploads/short" (some defsEx) [[("a", "1")]]
        (fun _ => .failure)).batches = [] ∧
      (runJobWith 50 "b" "uploads/short" (some defsEx) [[("a", "1")]]
        (fun _ => .failure)).totalRows = none ∧
      (∀ s ∈ (runJobWith 50 "b" "uploads/short" (some defsEx) [[("a", "1")]]
        (fun _ => .failure)).trace, s = .failed)) :=
  ⟨by decide, by decide, by decide,
   invalid_path_rejected 50 "b" "uploads/short" (some defsEx) [[("a", "1")]]
     (fun _ => .failure) (by decide) (by decide) (by decide)⟩

/-- C8 counterexample: an oracle reply with a valid pool pair and
confidence `5` is persisted with confidence `5`, outside `[0, 1]` — the
code never clamps; and an oracle confidence of the string `"Infinity"`
is persisted as the number Infinity, which no `[0, 1]` float is. -/
theorem confidence_range_counterexample :
    docGet (runConf5.writes.headD ⟨0, []⟩).doc "confidence" = some (.vnum 5) ∧
    ¬((5 : ℚ) ≤ 1) ∧
    docGet (runConfInf.writes.headD ⟨0, []⟩).doc "confidence" =
      some (.vnum .posInf) :=
  ⟨by decide, by norm_num, by decide⟩

/-- C8 (amended): every persisted `confidence` field is exactly
`Number(classification.confidence) || 0.0` for the classification
assembled for its row: it is `0.0` for fallback rows, and for accepted
rows it is `Number(result.confidence) || 0.0` of the oracle's supplied
value — `0.0` when that value is absent, falsy, or coerces to NaN,
otherwise the coerced value unchanged (infinities included), never
clamped into `[0, 1]`. -/
theorem confidence_coercion (B : Nat) (bucket file : String) (defs : Taxonomy)
    (rows : List RowData) (oracle : Nat → OracleOutcome) (w : RowWrite)
    (hw : w ∈ (runJobWith B bucket file (some defs) rows oracle).writes) :
    ∃ o b row cls, row ∈ b ∧ w ∈ (processBatch defs o b).1 ∧
      classifyRow defs (lookupResponse o row.index) = .ok cls ∧
      w = mkWrite row cls ∧
      docGet w.doc "confidence" =
        some (.vnum (numOrZero (toNumber cls.confidence))) ∧
      (cls = fallbackClassification →
        numOrZero (toNumber cls.confidence) = .finite 0) ∧
      (cls ≠ fallbackClassification → ∃ r,
        lookupResponse o row.index = some r ∧
        cls.confidence = (if r.confidence.truthy then r.confidence else .jnum 0) ∧
        docGet w.doc "confidence" =
          some (.vnum (numOrZero (toNumber r.confidence)))) := by
  obtain ⟨o, b, hpb⟩ := runJobWith_writes_mem B bucket file defs rows oracle w hw
  obtain ⟨row, hrow, cls, hcls, hweq⟩ := processBatch_mem defs o b w hpb
  subst hweq
  refine ⟨o, b, row, cls, hrow, hpb, hcls, rfl, docGet_confidence _ _ _, ?_, ?_⟩
  · intro hfb
    rw [hfb]
    decide
  · intro hne
    obtain ⟨r, hr, hconf⟩ := classifyRow_confidence defs _ cls hcls hne
    refine ⟨r, hr, hconf, ?_⟩
    have hd : docGet (mkWrite row cls).doc "confidence" =
        some (.vnum (numOrZero (toNumber cls.confidence))) := docGet_confidence _ _ _
    rw [hd, hconf]
    by_cases ht : r.confidence.truthy
    · rw [if_pos ht]
    · rw [if_neg ht, falsy_numOrZero r.confidence (by simpa using ht)]
      decide

/-- Witness for the amended C8 at the concrete run `runHW`, whose oracle
supplies confidence `1` on an accepted row. -/
theorem confidence_coercion_witness :
    (runHW.writes.headD ⟨0, []⟩ ∈ runHW.writes) ∧
    (∃ o b row cls, row ∈ b ∧
      runHW.writes.headD ⟨0, []⟩ ∈ (processBatch defsEx o b).1 ∧
      classifyRow defsEx (lookupResponse o row.index) = .ok cls ∧
      runHW.writes.headD ⟨0, []⟩ = mkWrite row cls ∧
      docGet (runHW.writes.headD ⟨0, []⟩).doc "confidence" =
        some (.vnum (numOrZero (toNumber cls.confidence))) ∧
      (cls = fallbackClassification →
        numOrZero (toNumber cls.confidence) = .finite 0) ∧
      (cls ≠ fallbackClassification → ∃ r,
        lookupResponse o row.index = some r ∧
        cls.confidence = (if r.confidence.truthy then r.confidence else .jnum 0) ∧
        docGet (runHW.writes.headD ⟨0, []⟩).doc "confidence" =
          some (.vnum (numOrZero (toNumber r.confidence))))) :=
  ⟨by decide,
   confidence_coercion 50 "bucket" "uploads/acme/job1/data.csv" defsEx
     [[("desc", "laptop")]] oracleHW _ (by decide)⟩

/-- C9 counterexample: the document written for a row carries exactly the
fields `original_data, cost_pool, cost_sub_pool, confidence, reasoning,
row_index` — no `manually_edited` field is written by the pipeline. -/
theorem rowresult_shape_counterexample :
    (runHW.writes.headD ⟨0, []⟩).doc.map Prod.fst =
      ["original_data", "cost_pool", "cost_sub_pool", "confidence", "reasoning",
       "row_index"] ∧
    "manually_edited" ∉ (runHW.writes.headD ⟨0, []⟩).doc.map Prod.fst :=
  ⟨by decide, by decide⟩

/-- C9 (amended): every row document written by the pipeline has exactly
the fields `original_data, cost_pool, cost_sub_pool, confidence,
reasoning, row_index`, in that order; `manually_edited` is not among
them (it is only added, as `true`, by the manual-edit HTTP function). -/
theorem rowresult_shape (B : Nat) (bucket file : String) (defs : Taxonomy)
    (rows : List RowData) (oracle : Nat → OracleOutcome) (w : RowWrite)
    (hw : w ∈ (runJobWith B bucket file (some defs) rows oracle).writes) :
    w.doc.map Prod.fst =
      ["original_data", "cost_pool", "cost_sub_pool", "confidence", "reasoning",
       "row_index"] := by
  obtain ⟨o, b, hpb⟩ := runJobWith_writes_mem B bucket file defs rows oracle w hw
  obtain ⟨row, _, cls, _, hweq⟩ := processBatch_mem defs o b w hpb
  subst hweq
  exact mkRowDoc_keys _ _ _

/-- Witness for the amended C9 at the concrete run `runHW`. -/
theorem rowresult_shape_witness :
    (runHW.writes.headD ⟨0, []⟩ ∈ runHW.writes) ∧
    (runHW.writes.headD ⟨0, []⟩).doc.map Prod.fst =
      ["original_data", "cost_pool", "cost_sub_pool", "confidence", "reasoning",
       "row_index"] :=
  ⟨by decide,
   rowresult_shape 50 "bucket" "uploads/acme/job1/data.csv" defsEx
     [[("desc", "laptop")]] oracleHW _ (by decide)⟩

/-- C4: demonstration of the code bug: when the oracle names the
inherited `Object.prototype` property `constructor` as the cost pool —
not a taxonomy key — the truthiness check `structuredDefs[cost_pool]`
passes, `.sub_pools.some` is called on `undefined`, and the thrown
TypeError aborts the batch: the row gets no write at all and the job is
marked `failed`, instead of the claimed fallback classification with the
job continuing. -/
theorem inherited_pool_name_crashes :
    classifyRow defsEx (some ⟨.jstr "constructor", .jstr "Laptops", .jnum 1, .jabsent⟩) =
      .error .typeError ∧
    runCtor.result = some (.jsError .typeError) ∧
    runCtor.writes = [] ∧
    runCtor.trace = [.reading, .failed] ∧
    runCtor.errorField = some (.jsError .typeError) :=
  ⟨by decide, by decide, by decide, by decide, by decide⟩

/-- C3: Oracle-failure isolation: if the call for batch `b` fails in
transport or parsing while a run in which the other batches behave the
same completes, then the failing run also completes, writes the same
status sequence and batches, classifies every batch other than `b`
exactly as the healthy run does, and gives every row of batch `b` the
fallback classification `("Unclassified", "Unclassified", 0.0)`. -/
theorem oracle_failure_isolation (B : Nat) (bucket file : String) (defs : Taxonomy)
    (rows : List RowData) (o1 o2 : Nat → OracleOutcome) (b : Nat) (hB : 0 < B)
    (hfail : o1 b = .failure)
    (hagree : ∀ i, i ≠ b → o1 i = o2 i)
    (h2 : (runJobWith B bucket file (some defs) rows o2).result = none) :
    (runJobWith B bucket file (some defs) rows o1).result = none ∧
    (runJobWith B bucket file (some defs) rows o1).trace =
      (runJobWith B bucket file (some defs) rows o2).trace ∧
    (runJobWith B bucket file (some defs) rows o1).trace.getLast? = some .completed ∧
    (runJobWith B bucket file (some defs) rows o1).batches =
      (runJobWith B bucket file (some defs) rows o2).batches ∧
    (runJobWith B bucket file (some defs) rows o1).writes =
      (seqWrites defs o1 0 (jobBatches B rows)).flatten ∧
    (runJobWith B bucket file (some defs) rows o2).writes =
      (seqWrites defs o2 0 (jobBatches B rows)).flatten ∧
    (seqWrites defs o1 0 (jobBatches B rows)).length = (jobBatches B rows).length ∧
    (∀ i, i ≠ b →
      (seqWrites defs o1 0 (jobBatches B rows)).getD i [] =
        (seqWrites defs o2 0 (jobBatches B rows)).getD i []) ∧
    ((seqWrites defs o1 0 (jobBatches B rows)).getD b []).map RowWrite.rowIndex =
      ((jobBatches B rows).getD b []).map SourceRow.index ∧
    (∀ w ∈ (seqWrites defs o1 0 (jobBatches B rows)).getD b [],
      docGet w.doc "cost_pool" = some (.vjson (.jstr "Unclassified")) ∧
      docGet w.doc "cost_sub_pool" = some (.vjson (.jstr "Unclassified")) ∧
      docGet w.doc "confidence" = some (.vnum 0)) := by
  have hm2 : (runMainWith B bucket file (some defs) rows o2).err = none := by
    rw [← runCatch_result file]
    exact h2
  obtain ⟨hbk, hf, hlen4, hup, hok2⟩ := runMain_ok_inversion B bucket file defs rows o2 hB hm2
  have hbat2 := processSeq_batches_ok defs o2 0 (jobBatches B rows) hok2
  have hbat1 : ∀ i, i < (jobBatches B rows).length →
      (processBatch defs (o1 (0 + i)) ((jobBatches B rows).getD i [])).2 = none := by
    intro i hi
    by_cases hib : i = b
    · subst hib
      rw [Nat.zero_add, hfail, processBatch_failure]
    · rw [Nat.zero_add, hagree i hib]
      simpa using hbat2 i hi
  have hok1 : (processSeq defs o1 0 (jobBatches B rows)).2 = none :=
    processSeq_of_batches defs o1 0 (jobBatches B rows) hbat1
  have hm1 := runMain_ok_char B bucket file defs rows o1 hB hbk hf hlen4 hup hok1
  have h1res : (runJobWith B bucket file (some defs) rows o1).result = none := by
    show (runCatch file (runMainWith B bucket file (some defs) rows o1)).result = none
    rw [runCatch_result, hm1]
  have hc1 := runJob_ok_char B bucket file defs rows o1 hB h1res
  have hc2 := runJob_ok_char B bucket file defs rows o2 hB h2
  have hlast : (JobStatus.reading ::
      ((List.range' 1 (rows.length / B)).map JobStatus.processingBatch)
        ++ [JobStatus.completed]).getLast? = some .completed := by
    rw [show JobStatus.reading ::
      ((List.range' 1 (rows.length / B)).map JobStatus.processingBatch)
        ++ [JobStatus.completed] =
      (JobStatus.reading ::
        (List.range' 1 (rows.length / B)).map JobStatus.processingBatch)
        ++ [JobStatus.completed] from rfl, List.getLast?_concat]
  have hgetD : ∀ i, i ≠ b →
      (seqWrites defs o1 0 (jobBatches B rows)).getD i [] =
        (seqWrites defs o2 0 (jobBatches B rows)).getD i [] := by
    intro i hib
    by_cases hi : i < (jobBatches B rows).length
    · rw [seqWrites_getD defs o1 0 _ i hi, seqWrites_getD defs o2 0 _ i hi,
        Nat.zero_add, hagree i hib]
    · have e1 : (seqWrites defs o1 0 (jobBatches B rows)).getD i [] = [] := by
        apply List.getD_eq_default
        rw [seqWrites_length]
        omega
      have e2 : (seqWrites defs o2 0 (jobBatches B rows)).getD i [] = [] := by
        apply List.getD_eq_default
        rw [seqWrites_length]
        omega
      rw [e1, e2]
  have hbmap : ((seqWrites defs o1 0 (jobBatches B rows)).getD b []).map
      RowWrite.rowIndex = ((jobBatches B rows).getD b []).map SourceRow.index := by
    by_cases hb : b < (jobBatches B rows).length
    · rw [seqWrites_getD defs o1 0 _ b hb, Nat.zero_add, hfail, processBatch_failure]
      simp [List.map_map, Function.comp]
    · have e1 : (seqWrites defs o1 0 (jobBatches B rows)).getD b [] = [] := by
        apply List.getD_eq_default
        rw [seqWrites_length]
        omega
      have e2 : (jobBatches B rows).getD b [] = [] := by
        apply List.getD_eq_default
        omega
      rw [e1, e2]
      rfl
  have hbfall : ∀ w ∈ (seqWrites defs o1 0 (jobBatches B rows)).getD b [],
      docGet w.doc "cost_pool" = some (.vjson (.jstr "Unclassified")) ∧
      docGet w.doc "cost_sub_pool" = some (.vjson (.jstr "Unclassified")) ∧
      docGet w.doc "confidence" = some (.vnum 0) := by
    intro w hw
    by_cases hb : b < (jobBatches B rows).length
    · rw [seqWrites_getD defs o1 0 _ b hb, Nat.zero_add, hfail,
        processBatch_failure] at hw
      simp only [List.mem_map] at hw
      obtain ⟨row, _, hweq⟩ := hw
      subst hweq
      exact ⟨rfl, rfl, rfl⟩
    · have e1 : (seqWrites defs o1 0 (jobBatches B rows)).getD b [] = [] := by
        apply List.getD_eq_default
        rw [seqWrites_length]
        omega
      rw [e1] at hw
      simp at hw
  rw [hc1, hc2]
  exact ⟨rfl, rfl, hlast, rfl, processSeq_writes_flatten defs o1 0 _ hok1,
    processSeq_writes_flatten defs o2 0 _ hok2, seqWrites_length defs o1 0 _,
    hgetD, hbmap, hbfall⟩

/-- Witness for C3: with batch size 2 over five rows, failing the oracle
call for batch index 1 leaves the run completing with the same status
trace as the healthy run, and batch 1's rows all fall back. -/
theorem oracle_failure_isolation_witness :
    (0 < 2) ∧ oracleFail1 1 = .failure ∧
    (runJobWith 2 "b" "uploads/t/j/f.csv" (some defsEx) rows5 oracleAll5).result = none ∧
    (runJobWith 2 "b" "uploads/t/j/f.csv" (some defsEx) rows5 oracleFail1).result = none ∧
    (runJobWith 2 "b" "uploads/t/j/f.csv" (some defsEx) rows5 oracleFail1).trace =
      (runJobWith 2 "b" "uploads/t/j/f.csv" (some defsEx) rows5 oracleAll5).trace ∧
    (∀ w ∈ (seqWrites defsEx oracleFail1 0 (jobBatches 2 rows5)).getD 1 [],
      docGet w.doc "cost_pool" = some (.vjson (.jstr "Unclassified")) ∧
      docGet w.doc "cost_sub_pool" = some (.vjson (.jstr "Unclassified")) ∧
      docGet w.doc "confidence" = some (.vnum 0)) := by
  have h := oracle_failure_isolation 2 "b" "uploads/t/j/f.csv" defsEx rows5 oracleFail1
    oracleAll5 1 (by decide) (by decide)
    (fun i hi => by unfold oracleFail1; rw [if_neg hi]) (by decide)
  exact ⟨by decide, by decide, by decide, h.1, h.2.1, h.2.2.2.2.2.2.2.2.2⟩

/-- C10: in the per-row `processCSV` variant, any error thrown during
processing is caught by the top-level handler and only logged: the job
document's status is never set to `failed`, no `error` field is ever
recorded, and a run that crashes never reaches `completed` — its last
written status is `reading` or `processing` (or nothing at all),
where it remains indefinitely. -/
theorem processCSV_errors_only_logged (defs? : Option Taxonomy)
    (event : Option (String × String)) (readResult : Except Unit (List RowData))
    (outcomes : Nat → CsvRowOutcome) :
    (processCSVRun defs? event readResult outcomes).errorField = none ∧
    CsvStatus.failed ∉ (processCSVRun defs? event readResult outcomes).trace ∧
    ((processCSVRun defs? event readResult outcomes).crashed = true →
      CsvStatus.completed ∉ (processCSVRun defs? event readResult outcomes).trace ∧
      ((processCSVRun defs? event readResult outcomes).trace.getLast? = none ∨
        (processCSVRun defs? event readResult outcomes).trace.getLast? = some .reading ∨
        (processCSVRun defs? event readResult outcomes).trace.getLast? =
          some .processing)) := by
  unfold processCSVRun
  cases defs? with
  | none => exact ⟨rfl, by simp, fun _ => ⟨by simp, Or.inl rfl⟩⟩
  | some defs =>
    dsimp only
    by_cases hde : defs.isEmpty
    · rw [if_pos hde]
      exact ⟨rfl, by simp, fun h => by simp at h⟩
    · rw [if_neg hde]
      cases event with
      | none => exact ⟨rfl, by simp, fun h => by simp at h⟩
      | some ev =>
        dsimp only
        by_cases hp : (splitSlash ev.2).length < 4 ∨ (splitSlash ev.2).getD 0 "" ≠ "uploads"
        · rw [if_pos hp]
          exact ⟨rfl, by simp, fun h => by simp at h⟩
        · rw [if_neg hp]
          cases readResult with
          | error e =>
            exact ⟨rfl, by simp, fun _ => ⟨by simp, Or.inr (Or.inl rfl)⟩⟩
          | ok records =>
            dsimp only
            by_cases hcr : (indexRows 0 records).any
                (fun row => csvRowCrashes (outcomes row.index))
            · rw [if_pos hcr]
              exact ⟨rfl, by simp, fun _ => ⟨by simp, Or.inr (Or.inr rfl)⟩⟩
            · rw [if_neg hcr]
              exact ⟨rfl, by simp, fun h => by simp at h⟩

/-- Witness for C10: a run whose per-row oracle calls all reject is left
crashed at status `processing`, with no `failed` status and no `error`
field. -/
theorem processCSV_errors_only_logged_witness :
    (processCSVRun (some defsEx) (some ("bucket", "uploads/acme/job1/data.csv"))
        (.ok [[("a", "1")]]) (fun _ => CsvRowOutcome.transportError)).crashed = true ∧
    (processCSVRun (some defsEx) (some ("bucket", "uploads/acme/job1/data.csv"))
        (.ok [[("a", "1")]]) (fun _ => CsvRowOutcome.transportError)).errorField = none ∧
    CsvStatus.failed ∉ (processCSVRun (some defsEx)
        (some ("bucket", "uploads/acme/job1/data.csv"))
        (.ok [[("a", "1")]]) (fun _ => CsvRowOutcome.transportError)).trace ∧
    (processCSVRun (some defsEx) (some ("bucket", "uploads/acme/job1/data.csv"))
        (.ok [[("a", "1")]]) (fun _ => CsvRowOutcome.transportError)).trace.getLast? =
      some .processing := by
  have h := processCSV_errors_only_logged (some defsEx)
    (some ("bucket", "uploads/acme/job1/data.csv"))
    (.ok [[("a", "1")]]) (fun _ => CsvRowOutcome.transportError)
  exact ⟨by decide, h.1, h.2.1, by decide⟩

end Claims

